import Mathlib

/-!
# Shallow embedding of `src/xraw_parser_writer.py`

The repository is a Python codec for the XRAW binary voxel-volume format:
`XRawVolumeParser` reads a byte source into a dictionary (header fields,
voxel index buffer, palette buffer, trailing bytes) and `XRawVolumeWriter`
serializes a voxel array and a palette array back into the byte format.

Modelling conventions:
* A byte source / sink is a `List Nat` whose entries are the byte values
  (theorems that need well-formedness carry `< 256` hypotheses or produce
  such lists by construction).  The file cursor is an explicit position.
* Python `file.read(k)` returns *up to* `k` bytes (fewer at end of file,
  everything for negative `k`); this short-read behaviour is modelled
  exactly by `pyRead`.
* Python exceptions are modelled by the `Err` enumeration at the
  granularity of the distinct raise sites / exception classes of the
  source: the magic-tag `ValueError` (`formatError`), the
  `UnicodeDecodeError` that `bytes.decode('utf-8')` raises on invalid
  UTF-8, the `struct.error` raised by `struct.unpack` on a buffer of the
  wrong size (`truncatedData`), the `IndexError` of a Python list /
  shape-tuple subscript, the `ValueError` of `np.zeros` on a negative
  dimension, the shape `ValueError` of the writer constructor
  (`shapeError`), numpy's ambiguous-truth-value `ValueError`
  (`ambiguousTruth`), numpy's inhomogeneous-array `ValueError`
  (`raggedArray`), the `ValueError` of `bytes([v])` for `v` outside
  `0..255` (`byteOutOfRange`) and the `OverflowError` of `int.to_bytes`
  (`overflowError`).
* Numeric cells of the parser's numpy arrays are `float64`.  Every value
  the claims exercise (voxel indices decoded from at most 4 bytes, 32-bit
  unsigned/signed integers, IEEE binary32 palette channels) is exactly
  representable in `float64`, so cells are modelled as exact numbers:
  `Int` for the voxel buffer and the rational-or-special `PyFloat` for
  the palette buffer.  Theorems about the voxel buffer therefore carry a
  `bytes_per_index ≤ 4` hypothesis, matching the spec invariant
  `bytes_per_index ∈ {1,2,4}`.
-/

/-- Exception classes / raise sites of the Python source (see module
comment for the mapping). -/
inductive Err
  | formatError
  | unicodeDecodeError
  | truncatedData
  | indexError
  | negativeDimension
  | shapeError
  | ambiguousTruth
  | raggedArray
  | byteOutOfRange
  | overflowError
deriving DecidableEq

/-- The three struct format characters of
`XRawVolumeParser.color_channel_data_types = ["I", "i", "f"]`:
unsigned 32-bit, signed 32-bit, IEEE binary32. -/
inductive Fmt
  | I
  | i
  | f
deriving DecidableEq

/-- Exact value of a Python `float` (IEEE binary64) cell as the claims
need it: a rational for finite values, plus infinities and NaN. -/
inductive PyFloat
  | finite (q : ℚ)
  | inf (neg : Bool)
  | nan
deriving DecidableEq

/-- Little-endian value of a byte list, as `int.from_bytes(·, 'little')`
computes it. -/
def leNat : List Nat → Nat
  | [] => 0
  | b :: rest => b + 256 * leNat rest

/-- The four little-endian bytes of `n.to_bytes(4, 'little')` for
`n < 2^32`. -/
def le4 (n : Nat) : List Nat :=
  [n % 256, n / 256 % 256, n / 256 ^ 2 % 256, n / 256 ^ 3 % 256]

/-- `(s.drop pos).take k`: the bytes a read of `k` bytes at cursor `pos`
returns (fewer when the source is shorter). -/
def readN (s : List Nat) (pos k : Nat) : List Nat :=
  (s.drop pos).take k

/-- Python `file.read(k)` with the cursor at `pos`: for negative `k` the
whole rest of the source is returned, otherwise up to `k` bytes. -/
def pyRead (s : List Nat) (pos : Nat) (k : Int) : List Nat :=
  if k < 0 then s.drop pos else (s.drop pos).take k.toNat

/-- Signed value of one byte, as `struct.unpack("b", ·)` decodes it. -/
def signedByte (b : Nat) : Int :=
  if b < 128 then (b : Int) else (b : Int) - 256

/-- Signed 32-bit reinterpretation of a value below `2^32`, as
`struct.unpack("i", ·)` decodes 4 bytes. -/
def signed32 (v : Nat) : Int :=
  if v < 2 ^ 31 then (v : Int) else (v : Int) - 2 ^ 32

/-- Value of an IEEE binary32 bit pattern, as `struct.unpack("f", ·)`
decodes 4 little-endian bytes (every binary32 value is exactly
representable in the `float64` palette cell). -/
def decodeF32 (bits : Nat) : PyFloat :=
  let s : Nat := bits / 2 ^ 31
  let e : Nat := bits / 2 ^ 23 % 256
  let m : Nat := bits % 2 ^ 23
  if e = 255 then
    if m = 0 then .inf (s == 1) else .nan
  else
    let mag : ℚ :=
      if e = 0 then (m : ℚ) / 2 ^ 149
      else ((2 ^ 23 + m : Nat) : ℚ) * 2 ^ (e - 1) / 2 ^ 149
    .finite (if s == 1 then -mag else mag)

/-- Value `struct.unpack(fmt, b)` produces from a 4-byte buffer `b`,
according to the selected channel data type. -/
def unpackVal (fmt : Fmt) (b : List Nat) : PyFloat :=
  match fmt with
  | .I => .finite ((leNat b : ℕ) : ℚ)
  | .i => .finite ((signed32 (leNat b) : ℤ) : ℚ)
  | .f => decodeF32 (leNat b)

/-- `struct.unpack(fmt, b)` for the three 4-byte formats: `struct.error`
unless the buffer holds exactly 4 bytes. -/
def unpackFmt (fmt : Fmt) (b : List Nat) : Except Err PyFloat :=
  if b.length = 4 then .ok (unpackVal fmt b) else .error .truncatedData

/-- Strict UTF-8 validity of a byte list, following CPython's decoder:
continuation bytes `0x80..0xBF`, no overlong forms (`0xC0`, `0xC1`, and
the restricted second bytes after `0xE0`/`0xF0`), no surrogates (after
`0xED`), nothing above `U+10FFFF` (after `0xF4`, and no `0xF5..0xFF`). -/
def utf8Valid : List Nat → Bool
  | [] => true
  | b :: r =>
    if b < 128 then utf8Valid r
    else if b < 194 then false
    else if b < 224 then
      match r with
      | c1 :: r2 => (128 ≤ c1 && c1 < 192) && utf8Valid r2
      | [] => false
    else if b < 240 then
      match r with
      | c1 :: c2 :: r2 =>
        (if b = 224 then 160 ≤ c1 && c1 < 192
         else if b = 237 then 128 ≤ c1 && c1 < 160
         else 128 ≤ c1 && c1 < 192)
        && (128 ≤ c2 && c2 < 192) && utf8Valid r2
      | _ => false
    else if b < 245 then
      match r with
      | c1 :: c2 :: c3 :: r2 =>
        (if b = 240 then 144 ≤ c1 && c1 < 192
         else if b = 244 then 128 ≤ c1 && c1 < 144
         else 128 ≤ c1 && c1 < 192)
        && (128 ≤ c2 && c2 < 192) && (128 ≤ c3 && c3 < 192) && utf8Valid r2
      | _ => false
    else false

/-- The UTF-8 bytes of the magic tag `"XRAW"`. -/
def xrawMagic : List Nat := [88, 82, 65, 87]

/-! ## Arrays

`PyArr` models a nested Python/numpy value as the writer receives it:
an integer leaf or a list of sub-arrays.  `npShape` is the shape
`np.array(·)` derives: scalars have shape `[]`, a list whose elements
all share one shape `s` has shape `length :: s`, an empty list has shape
`[0]`, and inhomogeneous ("ragged") input has no shape (modern numpy
raises a `ValueError` for it). -/

/-- A nested Python list / numpy array value with integer leaves. -/
inductive PyArr
  | int (n : Int)
  | arr (xs : List PyArr)

mutual

/-- Shape of `np.array (a)`; `none` for ragged input. -/
def npShape : PyArr → Option (List Nat)
  | .int _ => some []
  | .arr xs => (npShapeList xs).map (fun s => xs.length :: s)

/-- Common shape of the elements of a list (the empty list imposes no
constraint and contributes shape `[]` below it, matching
`np.array([]).shape == (0,)`). -/
def npShapeList : List PyArr → Option (List Nat)
  | [] => some []
  | [x] => npShape x
  | x :: y :: rest =>
    match npShape x, npShapeList (y :: rest) with
    | some s, some s2 => if s = s2 then some s else none
    | _, _ => none

end

/-- Subscript `a[i]`, with a zero scalar as the (never exercised)
out-of-domain default. -/
def PyArr.at1 : PyArr → Nat → PyArr
  | .arr xs, idx => xs.getD idx (.int 0)
  | .int n, _ => .int n

/-- Numeric value of a leaf. -/
def PyArr.item : PyArr → Int
  | .int n => n
  | .arr _ => 0

/-- `a[x][y][z]` on a 3-dimensional nested array. -/
def at3 (a : PyArr) (x y z : Nat) : Int :=
  (((a.at1 x).at1 y).at1 z).item

/-- `a[i][c]` on a 2-dimensional nested array. -/
def at2 (a : PyArr) (idx c : Nat) : Int :=
  ((a.at1 idx).at1 c).item

/-! ## Decoder: `XRawVolumeParser`

The parser's 3-dimensional `float64` voxel array is `Arr3` (nested lists
indexed `[x][y][z]`, exact `Int` cells, see the module comment), the
2-dimensional palette array is `Arr2` with `PyFloat` cells. -/

abbrev Arr3 := List (List (List Int))

abbrev Arr2 := List (List PyFloat)

/-- `np.zeros((w, h, d))`. -/
def zeros3 (w h d : Nat) : Arr3 :=
  List.replicate w (List.replicate h (List.replicate d 0))

/-- `np.zeros((n, c))` (as a `PyFloat` array). -/
def zeros2 (n c : Nat) : Arr2 :=
  List.replicate n (List.replicate c (.finite 0))

/-- `a[x][y][z]` on the parser's voxel array. -/
def get3 (a : Arr3) (x y z : Nat) : Int :=
  ((a.getD x []).getD y []).getD z 0

/-- The assignment `a[x][y][z] = v` on the parser's voxel array. -/
def set3 (a : Arr3) (x y z : Nat) (v : Int) : Arr3 :=
  a.set x ((a.getD x []).set y (((a.getD x []).getD y []).set z v))

/-- `a[i][c]` on the parser's palette array. -/
def get2 (a : Arr2) (idx c : Nat) : PyFloat :=
  (a.getD idx []).getD c (.finite 0)

/-- The assignment `a[i][c] = v` on the parser's palette array. -/
def set2 (a : Arr2) (idx c : Nat) (v : PyFloat) : Arr2 :=
  a.set idx ((a.getD idx []).set c v)

/-- Header fields as `read_header` stores them on the parser: the channel
data type selected from `color_channel_data_types`, the three signed-byte
fields (the two bit widths already floor-divided by 8, Python `//`), and
the four 4-byte unsigned fields. -/
structure Header where
  color_channel_data_type : Fmt
  num_of_color_channels : Int
  bytes_per_channel : Int
  bytes_per_index : Int
  width : Nat
  height : Nat
  depth : Nat
  num_of_pallette_colors : Nat
deriving DecidableEq

/-- `self.color_channel_data_types[t]` for a Python `int` index `t`:
Python list subscripts wrap negative indices once and raise `IndexError`
outside `-3 ≤ t < 3`. -/
def channelTypeOfIndex (t : Int) : Except Err Fmt :=
  if t = 0 ∨ t = -3 then .ok .I
  else if t = 1 ∨ t = -2 then .ok .i
  else if t = 2 ∨ t = -1 then .ok .f
  else .error .indexError

/-- `read_byte_to_int`: read 1 byte, `struct.unpack("b", ·)` — a signed
byte; `struct.error` when the source yields fewer than 1 byte. -/
def read_byte_to_int (s : List Nat) (pos : Nat) : Except Err (Int × Nat) :=
  let chunk := pyRead s pos 1
  if chunk.length = 1 then .ok (signedByte (chunk.getD 0 0), pos + chunk.length)
  else .error .truncatedData

/-- `read_unsigned_int`: read 4 bytes, `struct.unpack("I", ·)` — an
unsigned little-endian 32-bit value; `struct.error` on a short read. -/
def read_unsigned_int (s : List Nat) (pos : Nat) : Except Err (Nat × Nat) :=
  let chunk := pyRead s pos 4
  if chunk.length = 4 then .ok (leNat chunk, pos + chunk.length)
  else .error .truncatedData

/-- `raise_error_if_file_not_valid`: read 4 bytes, decode as UTF-8
(`UnicodeDecodeError` on invalid UTF-8 — a `ValueError` subclass distinct
from the raise below), compare with `"XRAW"` and raise
`ValueError("Can't recognize file format.")` on mismatch.  A decoded
string equals `"XRAW"` exactly when the bytes are its ASCII encoding,
since UTF-8 decoding is injective. -/
def raise_error_if_file_not_valid (s : List Nat) (pos : Nat) : Except Err Nat :=
  let chunk := pyRead s pos 4
  if utf8Valid chunk then
    if chunk = xrawMagic then .ok (pos + chunk.length) else .error .formatError
  else .error .unicodeDecodeError

/-- `read_header`: the magic check, the four signed one-byte fields in
order (the channel-type index immediately subscripts
`color_channel_data_types`; the two bit widths are floor-divided by 8),
then width, height, depth and palette color count as 4-byte little-endian
unsigned integers, in that order. -/
def read_header (s : List Nat) (pos0 : Nat) : Except Err (Header × Nat) := do
  let p1 ← raise_error_if_file_not_valid s pos0
  let (t, p2) ← read_byte_to_int s p1
  let fmt ← channelTypeOfIndex t
  let (nc, p3) ← read_byte_to_int s p2
  let (bc8, p4) ← read_byte_to_int s p3
  let (bi8, p5) ← read_byte_to_int s p4
  let (w, p6) ← read_unsigned_int s p5
  let (h, p7) ← read_unsigned_int s p6
  let (d, p8) ← read_unsigned_int s p7
  let (n, p9) ← read_unsigned_int s p8
  .ok (⟨fmt, nc, bc8.fdiv 8, bi8.fdiv 8, w, h, d, n⟩, p9)

/-- Innermost voxel loop `for x in range(width)` (`x` counts up from the
given start, `cnt` iterations remain): each step reads `bytes_per_index`
bytes, decodes them little-endian unsigned (`int.from_bytes`, which
raises nothing and yields 0 on an empty read) and assigns
`voxels[x][y][z]`. -/
def readVoxX (s : List Nat) (bpi : Int) (y z : Nat) : Nat → Nat → Arr3 × Nat → Arr3 × Nat
  | _, 0, st => st
  | x, cnt + 1, (a, pos) =>
    let chunk := pyRead s pos bpi
    readVoxX s bpi y z (x + 1) cnt (set3 a x y z (leNat chunk), pos + chunk.length)

/-- Middle voxel loop `for y in range(height)`. -/
def readVoxY (s : List Nat) (bpi : Int) (w : Nat) (z : Nat) : Nat → Nat → Arr3 × Nat → Arr3 × Nat
  | _, 0, st => st
  | y, cnt + 1, st => readVoxY s bpi w z (y + 1) cnt (readVoxX s bpi y z 0 w st)

/-- Outermost voxel loop `for z in range(depth)`. -/
def readVoxZ (s : List Nat) (bpi : Int) (w h : Nat) : Nat → Nat → Arr3 × Nat → Arr3 × Nat
  | _, 0, st => st
  | z, cnt + 1, st => readVoxZ s bpi w h (z + 1) cnt (readVoxY s bpi w z 0 h st)

/-- `read_voxel_buffer`: allocate `np.zeros((width, height, depth))` and
fill it in `z`-outer, `y`-middle, `x`-inner order. -/
def read_voxel_buffer (s : List Nat) (pos : Nat) (w h d : Nat) (bpi : Int) : Arr3 × Nat :=
  readVoxZ s bpi w h 0 d (zeros3 w h d, pos)

/-- Inner palette loop `for c in range(num_of_color_channels)`: read
`bytes_per_channel` bytes, append `b"\x00" * (4 - bytes_per_channel)`
(no padding when that count is negative), `struct.unpack` the result and
assign `palette[i][c]`. -/
def readPalC (s : List Nat) (bpc : Int) (fmt : Fmt) (idx : Nat) :
    Nat → Nat → Arr2 × Nat → Except Err (Arr2 × Nat)
  | _, 0, st => .ok st
  | c, cnt + 1, (a, pos) => do
    let chunk := pyRead s pos bpc
    let bytes_data := chunk ++ List.replicate ((4 - bpc).toNat) 0
    let v ← unpackFmt fmt bytes_data
    readPalC s bpc fmt idx (c + 1) cnt (set2 a idx c v, pos + chunk.length)

/-- Outer palette loop `for i in range(num_of_pallette_colors)`. -/
def readPalI (s : List Nat) (bpc : Int) (fmt : Fmt) (c : Nat) :
    Nat → Nat → Arr2 × Nat → Except Err (Arr2 × Nat)
  | _, 0, st => .ok st
  | idx, cnt + 1, st => do
    let st2 ← readPalC s bpc fmt idx 0 c st
    readPalI s bpc fmt c (idx + 1) cnt st2

/-- `read_palette_buffer`: allocate
`np.zeros((num_of_pallette_colors, num_of_color_channels))` — a
`ValueError` when the signed channel count is negative — then fill it
entry by entry, channel by channel. -/
def read_palette_buffer (s : List Nat) (pos : Nat) (n : Nat) (c : Int) (bpc : Int)
    (fmt : Fmt) : Except Err (Arr2 × Nat) :=
  if c < 0 then .error .negativeDimension
  else readPalI s bpc fmt c.toNat 0 n (zeros2 n c.toNat, pos)

/-- The dictionary `parse` assembles and caches. -/
structure XRawData where
  width : Nat
  height : Nat
  depth : Nat
  num_of_pallette_colors : Nat
  voxels : Arr3
  palette : Arr2
  remaining_bytes : List Nat
deriving DecidableEq

/-- One whole read pass: `read_header`, `read_voxel_buffer`,
`read_palette_buffer`, `read_remaining_bytes` (which drains the source),
then the result dictionary.  Returns the final cursor position. -/
def parsePass (s : List Nat) (pos0 : Nat) : Except Err (XRawData × Nat) := do
  let (hdr, p1) ← read_header s pos0
  let (voxels, p2) := read_voxel_buffer s p1 hdr.width hdr.height hdr.depth hdr.bytes_per_index
  let (palette, _p3) ← read_palette_buffer s p2 hdr.num_of_pallette_colors
    hdr.num_of_color_channels hdr.bytes_per_channel hdr.color_channel_data_type
  let remaining := s.drop _p3
  .ok (⟨hdr.width, hdr.height, hdr.depth, hdr.num_of_pallette_colors, voxels, palette,
    remaining⟩, s.length)

/-- An `XRawVolumeParser` instance: the byte source it holds open, its
cursor, and the `self.data` cache (initially `None`).  The cached
dictionary always carries its six keys, so Python's truthiness test
`if self.data:` coincides with the cache being set. -/
structure ParserState where
  stream : List Nat
  pos : Nat
  data : Option XRawData
deriving DecidableEq

/-- `parse`: return the cached dictionary when present, otherwise run the
single read pass and cache the result.  (The `use_lists` mode only
converts the numpy arrays to nested lists — a representation choice with
no numeric difference, so it is not modelled.)  On an exception the cache
stays unset; the claims do not depend on where the real file cursor stops
on an error path, so the state is returned unchanged there. -/
def parse (st : ParserState) : Except Err XRawData × ParserState :=
  match st.data with
  | some d => (.ok d, st)
  | none =>
    match parsePass st.stream st.pos with
    | .ok (d, p) => (.ok d, ⟨st.stream, p, some d⟩)
    | .error e => (.error e, st)

/-! ## Encoder: `XRawVolumeWriter` -/

/-- A constructor argument of `XRawVolumeWriter`: omitted (`None`), a
nested Python list, or an already-built numpy array. -/
inductive ArgVal
  | none
  | pylist (a : PyArr)
  | ndarray (a : PyArr)

/-- `default_voxels`: `np.zeros((1,1,1))`. -/
def default_voxels : PyArr := .arr [.arr [.arr [.int 0]]]

/-- `default_palette`: `np.full((256, 4), 255)`. -/
def default_palette : PyArr :=
  .arr (List.replicate 256 (.arr (List.replicate 4 (.int 255))))

/-- The expression `np.array(v) if v != None else dflt` of the
constructor.  `v != None` is a plain `True` for a list, so a list is
converted (modern numpy raises a `ValueError` on ragged input).  For an
ndarray the comparison is elementwise and the conditional's truthiness
test raises numpy's ambiguous-truth `ValueError` unless the array has
exactly one element (a one-element array is truthy since its element
differs from `None`; an ndarray always has a shape, so the `none` shape
branch is unreachable there). -/
def npConvert (arg : ArgVal) (dflt : PyArr) : Except Err PyArr :=
  match arg with
  | .none => .ok dflt
  | .pylist a => if (npShape a).isSome then .ok a else .error .raggedArray
  | .ndarray a =>
    match npShape a with
    | some dims => if dims.prod = 1 then .ok a else .error .ambiguousTruth
    | Option.none => .error .ambiguousTruth

/-- An `XRawVolumeWriter` instance after construction: the two arrays and
the fields `__init__` derives — extents from `voxels.shape`, palette
sizes from `palette.shape`, and the fixed encoding choices
`color_channel_data_type = "I"`, `bytes_per_channel = 1`,
`bytes_per_index = 1`. -/
structure XRawVolumeWriter where
  voxels : PyArr
  palette : PyArr
  width : Nat
  height : Nat
  depth : Nat
  num_of_pallette_colors : Nat
  num_of_color_channels : Nat
  color_channel_data_type : Fmt
  bytes_per_channel : Nat
  bytes_per_index : Nat

/-- `XRawVolumeWriter.__init__`: convert both arguments (in order), raise
`ValueError("voxel grid must be 3 dimensional")` unless the voxel shape
has length 3, then read `voxels.shape[0..2]` and `palette.shape[0]`,
`palette.shape[1]` (an `IndexError` when the palette has fewer than 2
dimensions).  No I/O happens here; `self.file` stays `None` until
`write_file` opens the destination. -/
def writerInit (voxArg palArg : ArgVal) : Except Err XRawVolumeWriter := do
  let vox ← npConvert voxArg default_voxels
  let pal ← npConvert palArg default_palette
  match npShape vox with
  | some [w, h, d] =>
    match npShape pal with
    | some (p0 :: p1 :: _) => .ok ⟨vox, pal, w, h, d, p0, p1, .I, 1, 1⟩
    | some _ => .error .indexError
    | Option.none => .error .indexError
  | _ => .error .shapeError

/-- Index of the writer's channel type in
`XRawVolumeParser.color_channel_data_types`
(`get_color_channel_data_type_index`). -/
def fmtIndex : Fmt → Nat
  | .I => 0
  | .i => 1
  | .f => 2

/-- `write_bytes([v])` for one value: `bytes([v])` raises a `ValueError`
unless `0 ≤ v < 256` — values are NOT silently truncated. -/
def byte1 (v : Int) : Except Err (List Nat) :=
  if 0 ≤ v ∧ v < 256 then .ok [v.toNat] else .error .byteOutOfRange

/-- `write_unsigned_int`: `int.to_bytes(4, 'little', signed=False)`,
an `OverflowError` outside `0 ≤ n < 2^32` (the field values are
nonnegative by construction). -/
def write_unsigned_int (n : Nat) : Except Err (List Nat) :=
  if n < 2 ^ 32 then .ok (le4 n) else .error .overflowError

/-- `write_header`: the UTF-8 bytes of `"XRAW"`, the channel-type index,
the channel count, the two byte widths multiplied back to bit widths —
each as one byte — then the four 4-byte little-endian unsigned fields,
in the same order the decoder reads them. -/
def write_header (wr : XRawVolumeWriter) : Except Err (List Nat) := do
  let b0 ← byte1 (fmtIndex wr.color_channel_data_type)
  let b1 ← byte1 wr.num_of_color_channels
  let b2 ← byte1 (wr.bytes_per_channel * 8)
  let b3 ← byte1 (wr.bytes_per_index * 8)
  let w4 ← write_unsigned_int wr.width
  let h4 ← write_unsigned_int wr.height
  let d4 ← write_unsigned_int wr.depth
  let n4 ← write_unsigned_int wr.num_of_pallette_colors
  .ok (xrawMagic ++ b0 ++ b1 ++ b2 ++ b3 ++ w4 ++ h4 ++ d4 ++ n4)

/-- Innermost writer loop `for x in range(width)`: one byte per voxel,
`bytes([self.voxels[x][y][z]])`. -/
def writeVoxX (vox : PyArr) (y z : Nat) : Nat → Nat → Except Err (List Nat)
  | _, 0 => .ok []
  | x, cnt + 1 => do
    let b ← byte1 (at3 vox x y z)
    let rest ← writeVoxX vox y z (x + 1) cnt
    .ok (b ++ rest)

/-- Middle writer loop `for y in range(height)`. -/
def writeVoxY (vox : PyArr) (w : Nat) (z : Nat) : Nat → Nat → Except Err (List Nat)
  | _, 0 => .ok []
  | y, cnt + 1 => do
    let row ← writeVoxX vox y z 0 w
    let rest ← writeVoxY vox w z (y + 1) cnt
    .ok (row ++ rest)

/-- Outermost writer loop `for z in range(depth)`. -/
def writeVoxZ (vox : PyArr) (w h : Nat) : Nat → Nat → Except Err (List Nat)
  | _, 0 => .ok []
  | z, cnt + 1 => do
    let plane ← writeVoxY vox w z 0 h
    let rest ← writeVoxZ vox w h (z + 1) cnt
    .ok (plane ++ rest)

/-- `write_voxels`: voxel indices in `z`-outer, `y`-middle, `x`-inner
order, one byte each — exactly the order the decoder reads them. -/
def write_voxels (wr : XRawVolumeWriter) : Except Err (List Nat) :=
  writeVoxZ wr.voxels wr.width wr.height 0 wr.depth

/-- Inner palette writer loop `for c in range(num_of_color_channels)`:
one byte per channel, `bytes([self.palette[i][c]])`. -/
def writePalC (pal : PyArr) (idx : Nat) : Nat → Nat → Except Err (List Nat)
  | _, 0 => .ok []
  | c, cnt + 1 => do
    let b ← byte1 (at2 pal idx c)
    let rest ← writePalC pal idx (c + 1) cnt
    .ok (b ++ rest)

/-- Outer palette writer loop `for i in range(num_of_pallette_colors)`. -/
def writePalI (pal : PyArr) (c : Nat) : Nat → Nat → Except Err (List Nat)
  | _, 0 => .ok []
  | idx, cnt + 1 => do
    let row ← writePalC pal idx 0 c
    let rest ← writePalI pal c (idx + 1) cnt
    .ok (row ++ rest)

/-- `write_palette`: palette entries in the same per-entry, per-channel
order the decoder reads them, one byte each. -/
def write_palette (wr : XRawVolumeWriter) : Except Err (List Nat) :=
  writePalI wr.palette wr.num_of_color_channels 0 wr.num_of_pallette_colors

/-- `write_file`: open the destination and emit header, voxel buffer and
palette buffer in order; the produced byte stream is their
concatenation. -/
def write_file (wr : XRawVolumeWriter) : Except Err (List Nat) := do
  let hd ← write_header wr
  let vx ← write_voxels wr
  let pl ← write_palette wr
  .ok (hd ++ vx ++ pl)

/-! ## Basic lemmas about bytes, reads and array cells -/

theorem leNat_singleton (b : Nat) : leNat [b] = b := by
  simp [leNat]

theorem leNat_le4 (n : Nat) (h : n < 2 ^ 32) : leNat (le4 n) = n := by
  simp only [le4, leNat]
  omega

theorem le4_length (n : Nat) : (le4 n).length = 4 := rfl

theorem pyRead_ofNat (s : List Nat) (pos k : Nat) :
    pyRead s pos (k : Int) = readN s pos k := by
  simp [pyRead, readN]

theorem readN_length (s : List Nat) (pos k : Nat) (h : pos + k ≤ s.length) :
    (readN s pos k).length = k := by
  simp [readN]
  omega

theorem readN_append (A B : List Nat) (j k : Nat) :
    readN (A ++ B) (A.length + j) k = readN B j k := by
  simp only [readN]
  rw [← List.drop_drop, List.drop_left]

theorem readN_one (L : List Nat) (j : Nat) (h : j < L.length) :
    readN L j 1 = [L.getD j 0] := by
  induction L generalizing j with
  | nil => simp at h
  | cons a t ih =>
    cases j with
    | zero => simp [readN]
    | succ j' =>
      simp only [List.length_cons] at h
      simpa [readN, List.getD_cons_succ] using ih j' (by omega)

theorem getD_set_self {α : Type} (l : List α) (i : Nat) (v d : α) (h : i < l.length) :
    (l.set i v).getD i d = v := by
  induction l generalizing i with
  | nil => simp at h
  | cons a t ih =>
    cases i with
    | zero => simp
    | succ i' =>
      simp only [List.length_cons] at h
      simpa [List.set] using ih i' (by omega)

theorem getD_set_ne {α : Type} (l : List α) (i j : Nat) (v d : α) (h : i ≠ j) :
    (l.set i v).getD j d = l.getD j d := by
  induction l generalizing i j with
  | nil => simp
  | cons a t ih =>
    cases i with
    | zero => cases j with
      | zero => exact absurd rfl h
      | succ j' => simp [List.set]
    | succ i' =>
      cases j with
      | zero => simp [List.set]
      | succ j' => simpa [List.set] using ih i' j' (by omega)

theorem getD_replicate {α : Type} (n i : Nat) (a d : α) (h : i < n) :
    (List.replicate n a).getD i d = a := by
  induction n generalizing i with
  | zero => omega
  | succ n' ih =>
    cases i with
    | zero => simp [List.replicate]
    | succ i' => simpa [List.replicate] using ih i' (by omega)

/-! ## Shape invariants of the decoder's arrays -/

/-- The voxel array has extents `w × h × d` (as `np.zeros((w,h,d))`
guarantees and every assignment preserves). -/
def Shaped3 (a : Arr3) (w h d : Nat) : Prop :=
  a.length = w ∧ ∀ x, x < w →
    (a.getD x []).length = h ∧ ∀ y, y < h → ((a.getD x []).getD y []).length = d

/-- The palette array has extents `n × c`. -/
def Shaped2 (a : Arr2) (n c : Nat) : Prop :=
  a.length = n ∧ ∀ i, i < n → (a.getD i []).length = c

theorem shaped3_zeros (w h d : Nat) : Shaped3 (zeros3 w h d) w h d := by
  refine ⟨by simp [zeros3], fun x hx => ?_⟩
  rw [zeros3, getD_replicate _ _ _ _ hx]
  exact ⟨by simp, fun y hy => by rw [getD_replicate _ _ _ _ hy]; simp⟩

theorem shaped2_zeros (n c : Nat) : Shaped2 (zeros2 n c) n c := by
  refine ⟨by simp [zeros2], fun i hi => ?_⟩
  rw [zeros2, getD_replicate _ _ _ _ hi]
  simp

theorem shaped3_set3 {a : Arr3} {w h d : Nat} (ha : Shaped3 a w h d)
    (x y z : Nat) (v : Int) : Shaped3 (set3 a x y z v) w h d := by
  obtain ⟨hlen, hrows⟩ := ha
  refine ⟨by simp [set3, hlen], fun x' hx' => ?_⟩
  by_cases hxx : x = x'
  · subst hxx
    by_cases hxw : x < a.length
    · rw [set3, getD_set_self _ _ _ _ hxw]
      obtain ⟨hrl, hcols⟩ := hrows x (by omega)
      refine ⟨by rw [List.length_set]; exact hrl, fun y' hy' => ?_⟩
      by_cases hyy : y = y'
      · subst hyy
        rw [getD_set_self _ _ _ _ (by omega : y < (a.getD x []).length)]
        rw [List.length_set]
        exact hcols y hy'
      · rw [getD_set_ne _ _ _ _ _ hyy]
        exact hcols y' hy'
    · omega
  · rw [set3, getD_set_ne _ _ _ _ _ hxx]
    exact hrows x' hx'

theorem shaped2_set2 {a : Arr2} {n c : Nat} (ha : Shaped2 a n c)
    (idx ch : Nat) (v : PyFloat) : Shaped2 (set2 a idx ch v) n c := by
  obtain ⟨hlen, hrows⟩ := ha
  refine ⟨by simp [set2, hlen], fun i' hi' => ?_⟩
  by_cases hii : idx = i'
  · subst hii
    rw [set2, getD_set_self _ _ _ _ (by omega : idx < a.length), List.length_set]
    exact hrows idx hi'
  · rw [set2, getD_set_ne _ _ _ _ _ hii]
    exact hrows i' hi'

theorem get3_set3_self {a : Arr3} {w h d : Nat} (ha : Shaped3 a w h d)
    {x y z : Nat} (hx : x < w) (hy : y < h) (hz : z < d) (v : Int) :
    get3 (set3 a x y z v) x y z = v := by
  obtain ⟨hlen, hrows⟩ := ha
  obtain ⟨hrl, hcols⟩ := hrows x hx
  have hcl := hcols y hy
  rw [get3, set3, getD_set_self _ _ _ _ (by omega : x < a.length),
    getD_set_self _ _ _ _ (by omega : y < (a.getD x []).length),
    getD_set_self _ _ _ _ (by omega : z < ((a.getD x []).getD y []).length)]

theorem get3_set3_ne (a : Arr3) (x y z x' y' z' : Nat) (v : Int)
    (hne : x' ≠ x ∨ y' ≠ y ∨ z' ≠ z) :
    get3 (set3 a x y z v) x' y' z' = get3 a x' y' z' := by
  rcases hne with hx | hy | hz
  · rw [get3, set3, getD_set_ne _ _ _ _ _ (fun e => hx e.symm), get3]
  · by_cases hxx : x = x'
    · subst hxx
      by_cases hxl : x < a.length
      · rw [get3, set3, getD_set_self _ _ _ _ hxl,
          getD_set_ne _ _ _ _ _ (fun e => hy e.symm), get3]
      · rw [get3, set3, List.set_eq_of_length_le (by omega), get3]
    · rw [get3, set3, getD_set_ne _ _ _ _ _ hxx, get3]
  · by_cases hxx : x = x'
    · subst hxx
      by_cases hxl : x < a.length
      · rw [get3, set3, getD_set_self _ _ _ _ hxl]
        by_cases hyy : y = y'
        · subst hyy
          by_cases hyl : y < (a.getD x []).length
          · rw [getD_set_self _ _ _ _ hyl, getD_set_ne _ _ _ _ _ (fun e => hz e.symm), get3]
          · rw [List.set_eq_of_length_le (by omega), get3]
        · rw [getD_set_ne _ _ _ _ _ hyy, get3]
      · rw [get3, set3, List.set_eq_of_length_le (by omega), get3]
    · rw [get3, set3, getD_set_ne _ _ _ _ _ hxx, get3]

theorem get2_set2_self {a : Arr2} {n c : Nat} (ha : Shaped2 a n c)
    {idx ch : Nat} (hi : idx < n) (hc : ch < c) (v : PyFloat) :
    get2 (set2 a idx ch v) idx ch = v := by
  obtain ⟨hlen, hrows⟩ := ha
  have hrl := hrows idx hi
  rw [get2, set2, getD_set_self _ _ _ _ (by omega : idx < a.length),
    getD_set_self _ _ _ _ (by omega : ch < (a.getD idx []).length)]

theorem get2_set2_ne (a : Arr2) (idx ch i' c' : Nat) (v : PyFloat)
    (hne : i' ≠ idx ∨ c' ≠ ch) :
    get2 (set2 a idx ch v) i' c' = get2 a i' c' := by
  rcases hne with hi | hc
  · rw [get2, set2, getD_set_ne _ _ _ _ _ (fun e => hi e.symm), get2]
  · by_cases hii : idx = i'
    · subst hii
      by_cases hil : idx < a.length
      · rw [get2, set2, getD_set_self _ _ _ _ hil,
          getD_set_ne _ _ _ _ _ (fun e => hc e.symm), get2]
      · rw [get2, set2, List.set_eq_of_length_le (by omega), get2]
    · rw [get2, set2, getD_set_ne _ _ _ _ _ hii, get2]

/-! ## Closed forms of the decoder's voxel loops

The loop at `read_voxel_buffer` threads one cursor through three nested
`for` loops; the lemmas below recover, by induction, where the cursor
ends and which slice of the source each cell holds. -/

theorem readVoxX_spec (s : List Nat) (bpi w h d y z : Nat) (hy : y < h) (hz : z < d) :
    ∀ (k x : Nat) (a : Arr3) (pos : Nat), x + k ≤ w → Shaped3 a w h d →
      pos + k * bpi ≤ s.length →
      (readVoxX s (bpi : Int) y z x k (a, pos)).2 = pos + k * bpi ∧
      Shaped3 (readVoxX s (bpi : Int) y z x k (a, pos)).1 w h d ∧
      (∀ i, i < k → get3 (readVoxX s (bpi : Int) y z x k (a, pos)).1 (x + i) y z
          = (leNat (readN s (pos + i * bpi) bpi) : Int)) ∧
      (∀ x' y' z', (y' ≠ y ∨ z' ≠ z ∨ x' < x ∨ x + k ≤ x') →
        get3 (readVoxX s (bpi : Int) y z x k (a, pos)).1 x' y' z' = get3 a x' y' z') := by
  intro k
  induction k with
  | zero =>
    intro x a pos _ ha _
    exact ⟨by simp [readVoxX], by simpa [readVoxX] using ha,
      fun i hi => absurd hi (by omega), fun x' y' z' _ => by simp [readVoxX]⟩
  | succ k ih =>
    intro x a pos hxk ha hlen
    have hmul : (k + 1) * bpi = k * bpi + bpi := Nat.succ_mul k bpi
    have hcl : (pyRead s pos (bpi : Int)).length = bpi := by
      rw [pyRead_ofNat]
      exact readN_length s pos bpi (by omega)
    have hstep : readVoxX s (bpi : Int) y z x (k + 1) (a, pos)
        = readVoxX s (bpi : Int) y z (x + 1) k
            (set3 a x y z (leNat (readN s pos bpi)), pos + bpi) := by
      rw [readVoxX, pyRead_ofNat, ← pyRead_ofNat, hcl, pyRead_ofNat]
    have ha2 : Shaped3 (set3 a x y z (leNat (readN s pos bpi))) w h d :=
      shaped3_set3 ha x y z _
    obtain ⟨ih1, ih2, ih3, ih4⟩ := ih (x + 1) (set3 a x y z (leNat (readN s pos bpi)))
      (pos + bpi) (by omega) ha2 (by omega)
    rw [hstep]
    refine ⟨by rw [ih1]; ring, ih2, fun i hi => ?_, fun x' y' z' hcond => ?_⟩
    · cases i with
      | zero =>
        simp only [Nat.add_zero, Nat.zero_mul]
        rw [ih4 x y z (Or.inr (Or.inr (Or.inl (by omega))))]
        rw [get3_set3_self ha (by omega) hy hz]
      | succ i2 =>
        have he1 : x + (i2 + 1) = (x + 1) + i2 := by ring
        have he2 : pos + (i2 + 1) * bpi = (pos + bpi) + i2 * bpi := by ring
        rw [he1, he2]
        exact ih3 i2 (by omega)
    · have hcond2 : y' ≠ y ∨ z' ≠ z ∨ x' < x + 1 ∨ (x + 1) + k ≤ x' := by
        rcases hcond with h1 | h2 | h3 | h4
        · exact Or.inl h1
        · exact Or.inr (Or.inl h2)
        · exact Or.inr (Or.inr (Or.inl (by omega)))
        · exact Or.inr (Or.inr (Or.inr (by omega)))
      rw [ih4 x' y' z' hcond2]
      refine get3_set3_ne a x y z x' y' z' _ ?_
      rcases hcond with h1 | h2 | h3 | h4
      · exact Or.inr (Or.inl h1)
      · exact Or.inr (Or.inr h2)
      · exact Or.inl (by omega)
      · exact Or.inl (by omega)

theorem readVoxY_spec (s : List Nat) (bpi w h d z : Nat) (hz : z < d) :
    ∀ (k y : Nat) (a : Arr3) (pos : Nat), y + k ≤ h → Shaped3 a w h d →
      pos + k * (w * bpi) ≤ s.length →
      (readVoxY s (bpi : Int) w z y k (a, pos)).2 = pos + k * (w * bpi) ∧
      Shaped3 (readVoxY s (bpi : Int) w z y k (a, pos)).1 w h d ∧
      (∀ j i, j < k → i < w → get3 (readVoxY s (bpi : Int) w z y k (a, pos)).1 i (y + j) z
          = (leNat (readN s (pos + j * (w * bpi) + i * bpi) bpi) : Int)) ∧
      (∀ x' y' z', (z' ≠ z ∨ y' < y ∨ y + k ≤ y') →
        get3 (readVoxY s (bpi : Int) w z y k (a, pos)).1 x' y' z' = get3 a x' y' z') := by
  intro k
  induction k with
  | zero =>
    intro y a pos _ ha _
    exact ⟨by simp [readVoxY], by simpa [readVoxY] using ha,
      fun j i hj _ => absurd hj (by omega), fun x' y' z' _ => by simp [readVoxY]⟩
  | succ k ih =>
    intro y a pos hyk ha hlen
    have hmul : (k + 1) * (w * bpi) = k * (w * bpi) + w * bpi := Nat.succ_mul k (w * bpi)
    obtain ⟨r2, rsh, rval, rpres⟩ := readVoxX_spec s bpi w h d y z (by omega) hz w 0 a pos
      (by omega) ha (by omega)
    have hstep : readVoxY s (bpi : Int) w z y (k + 1) (a, pos)
        = readVoxY s (bpi : Int) w z (y + 1) k (readVoxX s (bpi : Int) y z 0 w (a, pos)) := by
      rw [readVoxY]
    have hpair : readVoxX s (bpi : Int) y z 0 w (a, pos)
        = ((readVoxX s (bpi : Int) y z 0 w (a, pos)).1,
           (readVoxX s (bpi : Int) y z 0 w (a, pos)).2) := rfl
    obtain ⟨ih1, ih2, ih3, ih4⟩ := ih (y + 1) (readVoxX s (bpi : Int) y z 0 w (a, pos)).1
      ((readVoxX s (bpi : Int) y z 0 w (a, pos)).2) (by omega) rsh (by rw [r2]; omega)
    rw [hstep, hpair]
    refine ⟨by rw [ih1, r2]; ring, ih2, fun j i hj hi => ?_, fun x' y' z' hcond => ?_⟩
    · cases j with
      | zero =>
        simp only [Nat.add_zero, Nat.zero_mul]
        rw [ih4 i y z (Or.inr (Or.inl (by omega)))]
        have := rval i hi
        rw [Nat.zero_add] at this
        exact this
      | succ j2 =>
        have he1 : y + (j2 + 1) = (y + 1) + j2 := by ring
        have he2 : pos + (j2 + 1) * (w * bpi) + i * bpi
            = (readVoxX s (bpi : Int) y z 0 w (a, pos)).2 + j2 * (w * bpi) + i * bpi := by
          rw [r2]; ring
        rw [he1, he2]
        exact ih3 j2 i (by omega) hi
    · have hcond2 : z' ≠ z ∨ y' < y + 1 ∨ (y + 1) + k ≤ y' := by
        rcases hcond with h1 | h2 | h3
        · exact Or.inl h1
        · exact Or.inr (Or.inl (by omega))
        · exact Or.inr (Or.inr (by omega))
      rw [ih4 x' y' z' hcond2]
      refine rpres x' y' z' ?_
      rcases hcond with h1 | h2 | h3
      · exact Or.inr (Or.inl h1)
      · exact Or.inl (by omega)
      · exact Or.inl (by omega)

theorem readVoxZ_spec (s : List Nat) (bpi w h d : Nat) :
    ∀ (k z : Nat) (a : Arr3) (pos : Nat), z + k ≤ d → Shaped3 a w h d →
      pos + k * (h * (w * bpi)) ≤ s.length →
      (readVoxZ s (bpi : Int) w h z k (a, pos)).2 = pos + k * (h * (w * bpi)) ∧
      Shaped3 (readVoxZ s (bpi : Int) w h z k (a, pos)).1 w h d ∧
      (∀ j2 j i, j2 < k → j < h → i < w →
        get3 (readVoxZ s (bpi : Int) w h z k (a, pos)).1 i j (z + j2)
          = (leNat (readN s (pos + j2 * (h * (w * bpi)) + j * (w * bpi) + i * bpi) bpi) : Int)) ∧
      (∀ x' y' z', (z' < z ∨ z + k ≤ z') →
        get3 (readVoxZ s (bpi : Int) w h z k (a, pos)).1 x' y' z' = get3 a x' y' z') := by
  intro k
  induction k with
  | zero =>
    intro z a pos _ ha _
    exact ⟨by simp [readVoxZ], by simpa [readVoxZ] using ha,
      fun j2 j i hj2 _ _ => absurd hj2 (by omega), fun x' y' z' _ => by simp [readVoxZ]⟩
  | succ k ih =>
    intro z a pos hzk ha hlen
    have hmul : (k + 1) * (h * (w * bpi)) = k * (h * (w * bpi)) + h * (w * bpi) :=
      Nat.succ_mul k (h * (w * bpi))
    obtain ⟨r2, rsh, rval, rpres⟩ := readVoxY_spec s bpi w h d z (by omega) h 0 a pos
      (by omega) ha (by omega)
    have hstep : readVoxZ s (bpi : Int) w h z (k + 1) (a, pos)
        = readVoxZ s (bpi : Int) w h (z + 1) k (readVoxY s (bpi : Int) w z 0 h (a, pos)) := by
      rw [readVoxZ]
    have hpair : readVoxY s (bpi : Int) w z 0 h (a, pos)
        = ((readVoxY s (bpi : Int) w z 0 h (a, pos)).1,
           (readVoxY s (bpi : Int) w z 0 h (a, pos)).2) := rfl
    obtain ⟨ih1, ih2, ih3, ih4⟩ := ih (z + 1) (readVoxY s (bpi : Int) w z 0 h (a, pos)).1
      ((readVoxY s (bpi : Int) w z 0 h (a, pos)).2) (by omega) rsh (by rw [r2]; omega)
    rw [hstep, hpair]
    refine ⟨by rw [ih1, r2]; ring, ih2, fun j2 j i hj2 hj hi => ?_, fun x' y' z' hcond => ?_⟩
    · cases j2 with
      | zero =>
        simp only [Nat.add_zero, Nat.zero_mul]
        rw [ih4 i j z (Or.inl (by omega))]
        have := rval j i hj hi
        rw [Nat.zero_add] at this
        exact this
      | succ j3 =>
        have he1 : z + (j3 + 1) = (z + 1) + j3 := by ring
        have he2 : pos + (j3 + 1) * (h * (w * bpi)) + j * (w * bpi) + i * bpi
            = (readVoxY s (bpi : Int) w z 0 h (a, pos)).2 + j3 * (h * (w * bpi))
              + j * (w * bpi) + i * bpi := by
          rw [r2]; ring
        rw [he1, he2]
        exact ih3 j3 j i (by omega) hj hi
    · have hcond2 : z' < z + 1 ∨ (z + 1) + k ≤ z' := by
        rcases hcond with h1 | h2
        · exact Or.inl (by omega)
        · exact Or.inr (by omega)
      rw [ih4 x' y' z' hcond2]
      refine rpres x' y' z' ?_
      rcases hcond with h1 | h2
      · exact Or.inl (by omega)
      · exact Or.inl (by omega)

/-- Closed form of `read_voxel_buffer`: the cursor advances by exactly
`depth * height * width * bytes_per_index` bytes and the cell `[x][y][z]`
holds the little-endian value of the `bytes_per_index` bytes at flat
offset `((z*h + y)*w + x) * bytes_per_index` — `z` outermost, `x`
fastest. -/
theorem read_voxel_buffer_spec (s : List Nat) (pos w h d bpi : Nat)
    (hlen : pos + d * (h * (w * bpi)) ≤ s.length) :
    (read_voxel_buffer s pos w h d (bpi : Int)).2 = pos + d * (h * (w * bpi)) ∧
    Shaped3 (read_voxel_buffer s pos w h d (bpi : Int)).1 w h d ∧
    ∀ x y z, x < w → y < h → z < d →
      get3 (read_voxel_buffer s pos w h d (bpi : Int)).1 x y z
        = (leNat (readN s (pos + ((z * h + y) * w + x) * bpi) bpi) : Int) := by
  obtain ⟨r2, rsh, rval, _⟩ := readVoxZ_spec s bpi w h d d 0 (zeros3 w h d) pos
    (by omega) (shaped3_zeros w h d) hlen
  refine ⟨r2, rsh, fun x y z hx hy hz => ?_⟩
  have := rval z y x hz hy hx
  rw [Nat.zero_add] at this
  rw [read_voxel_buffer, this]
  have harith : pos + z * (h * (w * bpi)) + y * (w * bpi) + x * bpi
      = pos + ((z * h + y) * w + x) * bpi := by ring
  rw [harith]

/-! ## Closed forms of the decoder's palette loops -/

theorem ok_bind {α β γ : Type} (v : α) (f : α → Except γ β) :
    (Except.ok v >>= f : Except γ β) = f v := rfl

theorem error_bind {α β γ : Type} (e : γ) (f : α → Except γ β) :
    (Except.error e >>= f : Except γ β) = .error e := rfl

theorem readPalC_spec (s : List Nat) (bpc n c : Nat) (fmt : Fmt) (idx : Nat)
    (hbpc : bpc ≤ 4) (hidx : idx < n) :
    ∀ (k ch : Nat) (a : Arr2) (pos : Nat), ch + k ≤ c → Shaped2 a n c →
      pos + k * bpc ≤ s.length →
      ∃ A2, readPalC s (bpc : Int) fmt idx ch k (a, pos) = .ok (A2, pos + k * bpc) ∧
        Shaped2 A2 n c ∧
        (∀ t, t < k → get2 A2 idx (ch + t)
            = unpackVal fmt (readN s (pos + t * bpc) bpc ++ List.replicate (4 - bpc) 0)) ∧
        (∀ i' c', (i' ≠ idx ∨ c' < ch ∨ ch + k ≤ c') → get2 A2 i' c' = get2 a i' c') := by
  intro k
  induction k with
  | zero =>
    intro ch a pos _ ha _
    exact ⟨a, by simp [readPalC], ha, fun t ht => absurd ht (by omega),
      fun i' c' _ => rfl⟩
  | succ k ih =>
    intro ch a pos hchk ha hlen
    have hmul : (k + 1) * bpc = k * bpc + bpc := Nat.succ_mul k bpc
    have hcl : (readN s pos bpc).length = bpc := readN_length s pos bpc (by omega)
    have hpad : ((4 : Int) - (bpc : Nat)).toNat = 4 - bpc := by omega
    have hbd : (readN s pos bpc ++ List.replicate (4 - bpc) 0).length = 4 := by
      rw [List.length_append, hcl, List.length_replicate]
      omega
    have hunp : unpackFmt fmt (readN s pos bpc ++ List.replicate (4 - bpc) 0)
        = .ok (unpackVal fmt (readN s pos bpc ++ List.replicate (4 - bpc) 0)) := by
      rw [unpackFmt, if_pos hbd]
    have hstep : readPalC s (bpc : Int) fmt idx ch (k + 1) (a, pos)
        = readPalC s (bpc : Int) fmt idx (ch + 1) k
            (set2 a idx ch (unpackVal fmt (readN s pos bpc ++ List.replicate (4 - bpc) 0)),
             pos + bpc) := by
      have h1 : readPalC s (bpc : Int) fmt idx ch (k + 1) (a, pos)
          = (unpackFmt fmt (pyRead s pos (bpc : Int)
                ++ List.replicate (((4 : Int) - (bpc : Nat)).toNat) 0) >>= fun v =>
              readPalC s (bpc : Int) fmt idx (ch + 1) k
                (set2 a idx ch v, pos + (pyRead s pos (bpc : Int)).length)) := rfl
      rw [h1, pyRead_ofNat, hpad, hunp, ok_bind, hcl]
    have ha2 : Shaped2 (set2 a idx ch
        (unpackVal fmt (readN s pos bpc ++ List.replicate (4 - bpc) 0))) n c :=
      shaped2_set2 ha idx ch _
    obtain ⟨A2, ihok, ihsh, ihval, ihpres⟩ := ih (ch + 1)
      (set2 a idx ch (unpackVal fmt (readN s pos bpc ++ List.replicate (4 - bpc) 0)))
      (pos + bpc) (by omega) ha2 (by omega)
    refine ⟨A2, ?_, ihsh, fun t ht => ?_, fun i' c' hcond => ?_⟩
    · rw [hstep, ihok]
      have : pos + bpc + k * bpc = pos + (k + 1) * bpc := by ring
      rw [this]
    · cases t with
      | zero =>
        simp only [Nat.add_zero, Nat.zero_mul]
        by_cases hch : ch < c
        · rw [ihpres idx ch (Or.inr (Or.inl (by omega)))]
          rw [get2_set2_self ha hidx hch]
        · omega
      | succ t2 =>
        have he1 : ch + (t2 + 1) = (ch + 1) + t2 := by ring
        have he2 : pos + (t2 + 1) * bpc = (pos + bpc) + t2 * bpc := by ring
        rw [he1, he2]
        exact ihval t2 (by omega)
    · have hcond2 : i' ≠ idx ∨ c' < ch + 1 ∨ (ch + 1) + k ≤ c' := by
        rcases hcond with h1 | h2 | h3
        · exact Or.inl h1
        · exact Or.inr (Or.inl (by omega))
        · exact Or.inr (Or.inr (by omega))
      rw [ihpres i' c' hcond2]
      refine get2_set2_ne a idx ch i' c' _ ?_
      rcases hcond with h1 | h2 | h3
      · exact Or.inl h1
      · exact Or.inr (by omega)
      · exact Or.inr (by omega)

theorem readPalI_spec (s : List Nat) (bpc n c : Nat) (fmt : Fmt) (hbpc : bpc ≤ 4) :
    ∀ (k idx : Nat) (a : Arr2) (pos : Nat), idx + k ≤ n → Shaped2 a n c →
      pos + k * (c * bpc) ≤ s.length →
      ∃ A2, readPalI s (bpc : Int) fmt c idx k (a, pos) = .ok (A2, pos + k * (c * bpc)) ∧
        Shaped2 A2 n c ∧
        (∀ j t, j < k → t < c → get2 A2 (idx + j) t
            = unpackVal fmt (readN s (pos + j * (c * bpc) + t * bpc) bpc
                ++ List.replicate (4 - bpc) 0)) ∧
        (∀ i' c', (i' < idx ∨ idx + k ≤ i') → get2 A2 i' c' = get2 a i' c') := by
  intro k
  induction k with
  | zero =>
    intro idx a pos _ ha _
    exact ⟨a, by simp [readPalI], ha, fun j t hj _ => absurd hj (by omega),
      fun i' c' _ => rfl⟩
  | succ k ih =>
    intro idx a pos hik ha hlen
    have hmul : (k + 1) * (c * bpc) = k * (c * bpc) + c * bpc := Nat.succ_mul k (c * bpc)
    obtain ⟨R, rok, rsh, rval, rpres⟩ := readPalC_spec s bpc n c fmt idx hbpc (by omega)
      c 0 a pos (by omega) ha (by omega)
    have hstep : readPalI s (bpc : Int) fmt c idx (k + 1) (a, pos)
        = (readPalC s (bpc : Int) fmt idx 0 c (a, pos) >>= fun st2 =>
            readPalI s (bpc : Int) fmt c (idx + 1) k st2) := rfl
    obtain ⟨A2, ihok, ihsh, ihval, ihpres⟩ := ih (idx + 1) R (pos + c * bpc)
      (by omega) rsh (by omega)
    refine ⟨A2, ?_, ihsh, fun j t hj ht => ?_, fun i' c' hcond => ?_⟩
    · rw [hstep, rok, ok_bind, ihok]
      have : pos + c * bpc + k * (c * bpc) = pos + (k + 1) * (c * bpc) := by ring
      rw [this]
    · cases j with
      | zero =>
        simp only [Nat.add_zero, Nat.zero_mul]
        rw [ihpres idx t (Or.inl (by omega))]
        have := rval t ht
        rw [Nat.zero_add] at this
        rw [this]
      | succ j2 =>
        have he1 : idx + (j2 + 1) = (idx + 1) + j2 := by ring
        have he2 : pos + (j2 + 1) * (c * bpc) + t * bpc
            = (pos + c * bpc) + j2 * (c * bpc) + t * bpc := by ring
        rw [he1, he2]
        exact ihval j2 t (by omega) ht
    · have hcond2 : i' < idx + 1 ∨ (idx + 1) + k ≤ i' := by
        rcases hcond with h1 | h2
        · exact Or.inl (by omega)
        · exact Or.inr (by omega)
      rw [ihpres i' c' hcond2]
      refine rpres i' c' ?_
      rcases hcond with h1 | h2
      · exact Or.inl (by omega)
      · exact Or.inl (by omega)

/-- Closed form of `read_palette_buffer`: for a nonnegative channel count
the read succeeds, the cursor advances by exactly
`n * c * bytes_per_channel` bytes, and entry `[i][t]` is the unpacked
value of the `bytes_per_channel` bytes at flat offset
`(i*c + t) * bytes_per_channel`, zero-padded on the right to 4 bytes. -/
theorem read_palette_buffer_spec (s : List Nat) (pos n c bpc : Nat) (fmt : Fmt)
    (hbpc : bpc ≤ 4) (hlen : pos + n * (c * bpc) ≤ s.length) :
    ∃ A2, read_palette_buffer s pos n (c : Int) (bpc : Int) fmt
        = .ok (A2, pos + n * (c * bpc)) ∧
      Shaped2 A2 n c ∧
      ∀ i t, i < n → t < c → get2 A2 i t
          = unpackVal fmt (readN s (pos + (i * c + t) * bpc) bpc
              ++ List.replicate (4 - bpc) 0) := by
  obtain ⟨A2, hok, hsh, hval, _⟩ := readPalI_spec s bpc n c fmt hbpc n 0 (zeros2 n c) pos
    (by omega) (shaped2_zeros n c) hlen
  refine ⟨A2, ?_, hsh, fun i t hi ht => ?_⟩
  · rw [read_palette_buffer, if_neg (by omega), Int.toNat_natCast, hok]
  · have := hval i t hi ht
    rw [Nat.zero_add] at this
    rw [this]
    have harith : pos + i * (c * bpc) + t * bpc = pos + (i * c + t) * bpc := by ring
    rw [harith]

/-! ## Closed forms of the encoder's voxel loops -/

theorem writeVoxX_spec (vox : PyArr) (y z : Nat) :
    ∀ (k x : Nat), (∀ i, i < k → 0 ≤ at3 vox (x + i) y z ∧ at3 vox (x + i) y z < 256) →
      ∃ bs, writeVoxX vox y z x k = .ok bs ∧ bs.length = k ∧
        ∀ i, i < k → bs.getD i 0 = (at3 vox (x + i) y z).toNat := by
  intro k
  induction k with
  | zero => exact fun x _ => ⟨[], rfl, rfl, fun i hi => absurd hi (by omega)⟩
  | succ k ih =>
    intro x hrange
    have h0 := hrange 0 (by omega)
    rw [Nat.add_zero] at h0
    obtain ⟨rest, hro, hrl, hrv⟩ := ih (x + 1)
      (fun i hi => by
        have := hrange (i + 1) (by omega)
        rwa [show x + (i + 1) = (x + 1) + i by ring] at this)
    have hstep : writeVoxX vox y z x (k + 1)
        = (byte1 (at3 vox x y z) >>= fun b =>
            writeVoxX vox y z (x + 1) k >>= fun rest2 => .ok (b ++ rest2)) := rfl
    have hb : byte1 (at3 vox x y z) = .ok [(at3 vox x y z).toNat] := by
      rw [byte1, if_pos h0]
    refine ⟨[(at3 vox x y z).toNat] ++ rest, ?_, by simp [hrl], fun i hi => ?_⟩
    · rw [hstep, hb, ok_bind, hro, ok_bind]
    · cases i with
      | zero => simp
      | succ i2 =>
        rw [List.singleton_append, List.getD_cons_succ,
          show x + (i2 + 1) = (x + 1) + i2 by ring]
        exact hrv i2 (by omega)

theorem writeVoxX_ok_range (vox : PyArr) (y z : Nat) :
    ∀ (k x : Nat) (bs : List Nat), writeVoxX vox y z x k = .ok bs →
      ∀ i, i < k → 0 ≤ at3 vox (x + i) y z ∧ at3 vox (x + i) y z < 256 := by
  intro k
  induction k with
  | zero => exact fun x bs _ i hi => absurd hi (by omega)
  | succ k ih =>
    intro x bs hok i hi
    have hstep : writeVoxX vox y z x (k + 1)
        = (byte1 (at3 vox x y z) >>= fun b =>
            writeVoxX vox y z (x + 1) k >>= fun rest2 => .ok (b ++ rest2)) := rfl
    rw [hstep] at hok
    by_cases hP : 0 ≤ at3 vox x y z ∧ at3 vox x y z < 256
    · rw [byte1, if_pos hP, ok_bind] at hok
      cases hrest : writeVoxX vox y z (x + 1) k with
      | error e => rw [hrest, error_bind] at hok; exact Except.noConfusion hok
      | ok rest =>
        cases i with
        | zero => rwa [Nat.add_zero]
        | succ i2 =>
          rw [show x + (i2 + 1) = (x + 1) + i2 by ring]
          exact ih (x + 1) rest hrest i2 (by omega)
    · rw [byte1, if_neg hP, error_bind] at hok
      exact Except.noConfusion hok

theorem writeVoxY_spec (vox : PyArr) (w z : Nat) :
    ∀ (k y : Nat),
      (∀ j i, j < k → i < w → 0 ≤ at3 vox i (y + j) z ∧ at3 vox i (y + j) z < 256) →
      ∃ bs, writeVoxY vox w z y k = .ok bs ∧ bs.length = k * w ∧
        ∀ j i, j < k → i < w → bs.getD (j * w + i) 0 = (at3 vox i (y + j) z).toNat := by
  intro k
  induction k with
  | zero => exact fun y _ => ⟨[], rfl, by simp, fun j i hj _ => absurd hj (by omega)⟩
  | succ k ih =>
    intro y hrange
    obtain ⟨row, hro, hrl, hrv⟩ := writeVoxX_spec vox y z w 0
      (fun i hi => by
        have h2 := hrange 0 i (by omega) hi
        rw [Nat.add_zero] at h2
        simpa using h2)
    obtain ⟨rest, hso, hsl, hsv⟩ := ih (y + 1)
      (fun j i hj hi => by
        have := hrange (j + 1) i (by omega) hi
        rwa [show y + (j + 1) = (y + 1) + j by ring] at this)
    have hstep : writeVoxY vox w z y (k + 1)
        = (writeVoxX vox y z 0 w >>= fun row2 =>
            writeVoxY vox w z (y + 1) k >>= fun rest2 => .ok (row2 ++ rest2)) := rfl
    refine ⟨row ++ rest, ?_, ?_, fun j i hj hi => ?_⟩
    · rw [hstep, hro, ok_bind, hso, ok_bind]
    · rw [List.length_append, hrl, hsl]; ring
    · cases j with
      | zero =>
        rw [Nat.zero_mul, Nat.zero_add, Nat.add_zero,
          List.getD_append row rest 0 i (by omega)]
        have := hrv i hi
        rwa [Nat.zero_add] at this
      | succ j2 =>
        have hidx : (j2 + 1) * w + i = w + (j2 * w + i) := by ring
        rw [hidx, List.getD_append_right row rest 0 (w + (j2 * w + i)) (by omega),
          show y + (j2 + 1) = (y + 1) + j2 by ring]
        have : w + (j2 * w + i) - row.length = j2 * w + i := by omega
        rw [this]
        exact hsv j2 i (by omega) hi

theorem writeVoxY_ok_range (vox : PyArr) (w z : Nat) :
    ∀ (k y : Nat) (bs : List Nat), writeVoxY vox w z y k = .ok bs →
      ∀ j i, j < k → i < w → 0 ≤ at3 vox i (y + j) z ∧ at3 vox i (y + j) z < 256 := by
  intro k
  induction k with
  | zero => exact fun y bs _ j i hj _ => absurd hj (by omega)
  | succ k ih =>
    intro y bs hok j i hj hi
    have hstep : writeVoxY vox w z y (k + 1)
        = (writeVoxX vox y z 0 w >>= fun row2 =>
            writeVoxY vox w z (y + 1) k >>= fun rest2 => .ok (row2 ++ rest2)) := rfl
    rw [hstep] at hok
    cases hrow : writeVoxX vox y z 0 w with
    | error e => rw [hrow, error_bind] at hok; exact Except.noConfusion hok
    | ok row =>
      rw [hrow, ok_bind] at hok
      cases hrest : writeVoxY vox w z (y + 1) k with
      | error e => rw [hrest, error_bind] at hok; exact Except.noConfusion hok
      | ok rest =>
        cases j with
        | zero =>
          have := writeVoxX_ok_range vox y z w 0 row hrow i hi
          simpa using this
        | succ j2 =>
          rw [show y + (j2 + 1) = (y + 1) + j2 by ring]
          exact ih (y + 1) rest hrest j2 i (by omega) hi

theorem writeVoxZ_spec (vox : PyArr) (w h : Nat) :
    ∀ (k z : Nat),
      (∀ j2 j i, j2 < k → j < h → i < w →
        0 ≤ at3 vox i j (z + j2) ∧ at3 vox i j (z + j2) < 256) →
      ∃ bs, writeVoxZ vox w h z k = .ok bs ∧ bs.length = k * (h * w) ∧
        ∀ j2 j i, j2 < k → j < h → i < w →
          bs.getD (j2 * (h * w) + (j * w + i)) 0 = (at3 vox i j (z + j2)).toNat := by
  intro k
  induction k with
  | zero => exact fun z _ => ⟨[], rfl, by simp, fun j2 j i hj2 _ _ => absurd hj2 (by omega)⟩
  | succ k ih =>
    intro z hrange
    obtain ⟨plane, hpo, hpl, hpv⟩ := writeVoxY_spec vox w z h 0
      (fun j i hj hi => by
        have := hrange 0 (0 + j) i (by omega) (by omega) hi
        rwa [Nat.add_zero] at this)
    obtain ⟨rest, hso, hsl, hsv⟩ := ih (z + 1)
      (fun j2 j i hj2 hj hi => by
        have := hrange (j2 + 1) j i (by omega) hj hi
        rwa [show z + (j2 + 1) = (z + 1) + j2 by ring] at this)
    have hstep : writeVoxZ vox w h z (k + 1)
        = (writeVoxY vox w z 0 h >>= fun plane2 =>
            writeVoxZ vox w h (z + 1) k >>= fun rest2 => .ok (plane2 ++ rest2)) := rfl
    refine ⟨plane ++ rest, ?_, ?_, fun j2 j i hj2 hj hi => ?_⟩
    · rw [hstep, hpo, ok_bind, hso, ok_bind]
    · rw [List.length_append, hpl, hsl]; ring
    · cases j2 with
      | zero =>
        rw [Nat.zero_mul, Nat.zero_add, Nat.add_zero,
          List.getD_append plane rest 0 (j * w + i)
            (by rw [hpl]; calc j * w + i < j * w + w := by omega
              _ ≤ h * w := by
                have : j * w + w = (j + 1) * w := by ring
                rw [this]
                exact Nat.mul_le_mul_right w (by omega))]
        have := hpv j i hj hi
        rwa [Nat.zero_add] at this
      | succ j3 =>
        have hidx : (j3 + 1) * (h * w) + (j * w + i) = h * w + (j3 * (h * w) + (j * w + i)) := by
          ring
        rw [hidx,
          List.getD_append_right plane rest 0 (h * w + (j3 * (h * w) + (j * w + i)))
            (by omega),
          show z + (j3 + 1) = (z + 1) + j3 by ring]
        have : h * w + (j3 * (h * w) + (j * w + i)) - plane.length
            = j3 * (h * w) + (j * w + i) := by omega
        rw [this]
        exact hsv j3 j i (by omega) hj hi

theorem writeVoxZ_ok_range (vox : PyArr) (w h : Nat) :
    ∀ (k z : Nat) (bs : List Nat), writeVoxZ vox w h z k = .ok bs →
      ∀ j2 j i, j2 < k → j < h → i < w →
        0 ≤ at3 vox i j (z + j2) ∧ at3 vox i j (z + j2) < 256 := by
  intro k
  induction k with
  | zero => exact fun z bs _ j2 j i hj2 _ _ => absurd hj2 (by omega)
  | succ k ih =>
    intro z bs hok j2 j i hj2 hj hi
    have hstep : writeVoxZ vox w h z (k + 1)
        = (writeVoxY vox w z 0 h >>= fun plane2 =>
            writeVoxZ vox w h (z + 1) k >>= fun rest2 => .ok (plane2 ++ rest2)) := rfl
    rw [hstep] at hok
    cases hplane : writeVoxY vox w z 0 h with
    | error e => rw [hplane, error_bind] at hok; exact Except.noConfusion hok
    | ok plane =>
      rw [hplane, ok_bind] at hok
      cases hrest : writeVoxZ vox w h (z + 1) k with
      | error e => rw [hrest, error_bind] at hok; exact Except.noConfusion hok
      | ok rest =>
        cases j2 with
        | zero =>
          have := writeVoxY_ok_range vox w z h 0 plane hplane j i hj hi
          simpa using this
        | succ j3 =>
          rw [show z + (j3 + 1) = (z + 1) + j3 by ring]
          exact ih (z + 1) rest hrest j3 j i (by omega) hj hi

/-! ## Closed forms of the encoder's palette loops -/

theorem writePalC_spec (pal : PyArr) (idx : Nat) :
    ∀ (k ch : Nat),
      (∀ t, t < k → 0 ≤ at2 pal idx (ch + t) ∧ at2 pal idx (ch + t) < 256) →
      ∃ bs, writePalC pal idx ch k = .ok bs ∧ bs.length = k ∧
        ∀ t, t < k → bs.getD t 0 = (at2 pal idx (ch + t)).toNat := by
  intro k
  induction k with
  | zero => exact fun ch _ => ⟨[], rfl, rfl, fun t ht => absurd ht (by omega)⟩
  | succ k ih =>
    intro ch hrange
    have h0 := hrange 0 (by omega)
    rw [Nat.add_zero] at h0
    obtain ⟨rest, hro, hrl, hrv⟩ := ih (ch + 1)
      (fun t ht => by
        have := hrange (t + 1) (by omega)
        rwa [show ch + (t + 1) = (ch + 1) + t by ring] at this)
    have hstep : writePalC pal idx ch (k + 1)
        = (byte1 (at2 pal idx ch) >>= fun b =>
            writePalC pal idx (ch + 1) k >>= fun rest2 => .ok (b ++ rest2)) := rfl
    have hb : byte1 (at2 pal idx ch) = .ok [(at2 pal idx ch).toNat] := by
      rw [byte1, if_pos h0]
    refine ⟨[(at2 pal idx ch).toNat] ++ rest, ?_, by simp [hrl], fun t ht => ?_⟩
    · rw [hstep, hb, ok_bind, hro, ok_bind]
    · cases t with
      | zero => simp
      | succ t2 =>
        rw [List.singleton_append, List.getD_cons_succ,
          show ch + (t2 + 1) = (ch + 1) + t2 by ring]
        exact hrv t2 (by omega)

theorem writePalC_ok_range (pal : PyArr) (idx : Nat) :
    ∀ (k ch : Nat) (bs : List Nat), writePalC pal idx ch k = .ok bs →
      ∀ t, t < k → 0 ≤ at2 pal idx (ch + t) ∧ at2 pal idx (ch + t) < 256 := by
  intro k
  induction k with
  | zero => exact fun ch bs _ t ht => absurd ht (by omega)
  | succ k ih =>
    intro ch bs hok t ht
    have hstep : writePalC pal idx ch (k + 1)
        = (byte1 (at2 pal idx ch) >>= fun b =>
            writePalC pal idx (ch + 1) k >>= fun rest2 => .ok (b ++ rest2)) := rfl
    rw [hstep] at hok
    by_cases hP : 0 ≤ at2 pal idx ch ∧ at2 pal idx ch < 256
    · rw [byte1, if_pos hP, ok_bind] at hok
      cases hrest : writePalC pal idx (ch + 1) k with
      | error e => rw [hrest, error_bind] at hok; exact Except.noConfusion hok
      | ok rest =>
        cases t with
        | zero => rwa [Nat.add_zero]
        | succ t2 =>
          rw [show ch + (t2 + 1) = (ch + 1) + t2 by ring]
          exact ih (ch + 1) rest hrest t2 (by omega)
    · rw [byte1, if_neg hP, error_bind] at hok
      exact Except.noConfusion hok

theorem writePalI_spec (pal : PyArr) (c : Nat) :
    ∀ (k idx : Nat),
      (∀ j t, j < k → t < c → 0 ≤ at2 pal (idx + j) t ∧ at2 pal (idx + j) t < 256) →
      ∃ bs, writePalI pal c idx k = .ok bs ∧ bs.length = k * c ∧
        ∀ j t, j < k → t < c → bs.getD (j * c + t) 0 = (at2 pal (idx + j) t).toNat := by
  intro k
  induction k with
  | zero => exact fun idx _ => ⟨[], rfl, by simp, fun j t hj _ => absurd hj (by omega)⟩
  | succ k ih =>
    intro idx hrange
    obtain ⟨row, hro, hrl, hrv⟩ := writePalC_spec pal idx c 0
      (fun t ht => by
        have h2 := hrange 0 t (by omega) (by simpa using ht)
        rw [Nat.add_zero] at h2
        simpa using h2)
    obtain ⟨rest, hso, hsl, hsv⟩ := ih (idx + 1)
      (fun j t hj ht => by
        have := hrange (j + 1) t (by omega) ht
        rwa [show idx + (j + 1) = (idx + 1) + j by ring] at this)
    have hstep : writePalI pal c idx (k + 1)
        = (writePalC pal idx 0 c >>= fun row2 =>
            writePalI pal c (idx + 1) k >>= fun rest2 => .ok (row2 ++ rest2)) := rfl
    refine ⟨row ++ rest, ?_, ?_, fun j t hj ht => ?_⟩
    · rw [hstep, hro, ok_bind, hso, ok_bind]
    · rw [List.length_append, hrl, hsl]; ring
    · cases j with
      | zero =>
        rw [Nat.zero_mul, Nat.zero_add, Nat.add_zero,
          List.getD_append row rest 0 t (by omega)]
        have := hrv t ht
        rwa [Nat.zero_add] at this
      | succ j2 =>
        have hidx : (j2 + 1) * c + t = c + (j2 * c + t) := by ring
        rw [hidx, List.getD_append_right row rest 0 (c + (j2 * c + t)) (by omega),
          show idx + (j2 + 1) = (idx + 1) + j2 by ring]
        have : c + (j2 * c + t) - row.length = j2 * c + t := by omega
        rw [this]
        exact hsv j2 t (by omega) ht

theorem writePalI_ok_range (pal : PyArr) (c : Nat) :
    ∀ (k idx : Nat) (bs : List Nat), writePalI pal c idx k = .ok bs →
      ∀ j t, j < k → t < c → 0 ≤ at2 pal (idx + j) t ∧ at2 pal (idx + j) t < 256 := by
  intro k
  induction k with
  | zero => exact fun idx bs _ j t hj _ => absurd hj (by omega)
  | succ k ih =>
    intro idx bs hok j t hj ht
    have hstep : writePalI pal c idx (k + 1)
        = (writePalC pal idx 0 c >>= fun row2 =>
            writePalI pal c (idx + 1) k >>= fun rest2 => .ok (row2 ++ rest2)) := rfl
    rw [hstep] at hok
    cases hrow : writePalC pal idx 0 c with
    | error e => rw [hrow, error_bind] at hok; exact Except.noConfusion hok
    | ok row =>
      rw [hrow, ok_bind] at hok
      cases hrest : writePalI pal c (idx + 1) k with
      | error e => rw [hrest, error_bind] at hok; exact Except.noConfusion hok
      | ok rest =>
        cases j with
        | zero =>
          have := writePalC_ok_range pal idx c 0 row hrow t ht
          simpa using this
        | succ j2 =>
          rw [show idx + (j2 + 1) = (idx + 1) + j2 by ring]
          exact ih (idx + 1) rest hrest j2 t (by omega) ht

/-! ## Header layout -/

/-- The channel type stored by `read_header` when the on-disk index byte
is `t ≤ 2`. -/
def fmtOfNat : Nat → Fmt
  | 0 => .I
  | 1 => .i
  | _ => .f

theorem write_header_spec (wr : XRawVolumeWriter)
    (hnc : wr.num_of_color_channels < 256)
    (hbc : wr.bytes_per_channel * 8 < 256) (hbi : wr.bytes_per_index * 8 < 256)
    (hw : wr.width < 2 ^ 32) (hh : wr.height < 2 ^ 32) (hd : wr.depth < 2 ^ 32)
    (hn : wr.num_of_pallette_colors < 2 ^ 32) :
    write_header wr = .ok (xrawMagic
      ++ [fmtIndex wr.color_channel_data_type, wr.num_of_color_channels,
          wr.bytes_per_channel * 8, wr.bytes_per_index * 8]
      ++ le4 wr.width ++ le4 wr.height ++ le4 wr.depth
      ++ le4 wr.num_of_pallette_colors) := by
  have hf : fmtIndex wr.color_channel_data_type < 3 := by
    cases wr.color_channel_data_type <;> simp [fmtIndex]
  have h0 : byte1 (fmtIndex wr.color_channel_data_type)
      = .ok [fmtIndex wr.color_channel_data_type] := by
    rw [byte1, if_pos (by omega)]
    rw [Int.toNat_natCast]
  have h1 : byte1 (wr.num_of_color_channels : Nat)
      = .ok [wr.num_of_color_channels] := by
    rw [byte1, if_pos (by omega), Int.toNat_natCast]
  have h2 : byte1 ((wr.bytes_per_channel : Int) * 8)
      = .ok [wr.bytes_per_channel * 8] := by
    have hc : ((wr.bytes_per_channel : Int) * 8) = ((wr.bytes_per_channel * 8 : Nat) : Int) := by
      push_cast
      ring
    rw [hc, byte1, if_pos (by omega), Int.toNat_natCast]
  have h3 : byte1 ((wr.bytes_per_index : Int) * 8)
      = .ok [wr.bytes_per_index * 8] := by
    have hc : ((wr.bytes_per_index : Int) * 8) = ((wr.bytes_per_index * 8 : Nat) : Int) := by
      push_cast
      ring
    rw [hc, byte1, if_pos (by omega), Int.toNat_natCast]
  have h4 : write_unsigned_int wr.width = .ok (le4 wr.width) := by
    rw [write_unsigned_int, if_pos hw]
  have h5 : write_unsigned_int wr.height = .ok (le4 wr.height) := by
    rw [write_unsigned_int, if_pos hh]
  have h6 : write_unsigned_int wr.depth = .ok (le4 wr.depth) := by
    rw [write_unsigned_int, if_pos hd]
  have h7 : write_unsigned_int wr.num_of_pallette_colors
      = .ok (le4 wr.num_of_pallette_colors) := by
    rw [write_unsigned_int, if_pos hn]
  simp only [write_header, h0, h1, h2, h3, h4, h5, h6, h7, ok_bind]
  rfl

set_option maxRecDepth 8000 in
theorem read_header_spec (t nc bc bi w h dp n : Nat) (rest : List Nat) (ht : t ≤ 2)
    (hw : w < 2 ^ 32) (hh : h < 2 ^ 32) (hd : dp < 2 ^ 32) (hn : n < 2 ^ 32) :
    read_header (xrawMagic ++ t :: nc :: bc :: bi ::
        (le4 w ++ le4 h ++ le4 dp ++ le4 n ++ rest)) 0
      = .ok (⟨fmtOfNat t, signedByte nc, (signedByte bc).fdiv 8, (signedByte bi).fdiv 8,
          w, h, dp, n⟩, 24) := by
  have hfmt : channelTypeOfIndex (signedByte t) = .ok (fmtOfNat t) := by
    have hsb : signedByte t = (t : Int) := by rw [signedByte, if_pos (by omega)]
    rw [hsb]
    interval_cases t
    · rfl
    · rfl
    · rfl
  have hv : raise_error_if_file_not_valid (xrawMagic ++ t :: nc :: bc :: bi ::
      (le4 w ++ le4 h ++ le4 dp ++ le4 n ++ rest)) 0 = .ok 4 := rfl
  have hb1 : read_byte_to_int (xrawMagic ++ t :: nc :: bc :: bi ::
      (le4 w ++ le4 h ++ le4 dp ++ le4 n ++ rest)) 4 = .ok (signedByte t, 5) := rfl
  have hb2 : read_byte_to_int (xrawMagic ++ t :: nc :: bc :: bi ::
      (le4 w ++ le4 h ++ le4 dp ++ le4 n ++ rest)) 5 = .ok (signedByte nc, 6) := rfl
  have hb3 : read_byte_to_int (xrawMagic ++ t :: nc :: bc :: bi ::
      (le4 w ++ le4 h ++ le4 dp ++ le4 n ++ rest)) 6 = .ok (signedByte bc, 7) := rfl
  have hb4 : read_byte_to_int (xrawMagic ++ t :: nc :: bc :: bi ::
      (le4 w ++ le4 h ++ le4 dp ++ le4 n ++ rest)) 7 = .ok (signedByte bi, 8) := rfl
  have hu1 : read_unsigned_int (xrawMagic ++ t :: nc :: bc :: bi ::
      (le4 w ++ le4 h ++ le4 dp ++ le4 n ++ rest)) 8 = .ok (leNat (le4 w), 12) := rfl
  have hu2 : read_unsigned_int (xrawMagic ++ t :: nc :: bc :: bi ::
      (le4 w ++ le4 h ++ le4 dp ++ le4 n ++ rest)) 12 = .ok (leNat (le4 h), 16) := rfl
  have hu3 : read_unsigned_int (xrawMagic ++ t :: nc :: bc :: bi ::
      (le4 w ++ le4 h ++ le4 dp ++ le4 n ++ rest)) 16 = .ok (leNat (le4 dp), 20) := rfl
  have hu4 : read_unsigned_int (xrawMagic ++ t :: nc :: bc :: bi ::
      (le4 w ++ le4 h ++ le4 dp ++ le4 n ++ rest)) 20 = .ok (leNat (le4 n), 24) := rfl
  simp only [read_header, hv, hb1, hb2, hb3, hb4, hu1, hu2, hu3, hu4, hfmt, ok_bind,
    leNat_le4 w hw, leNat_le4 h hh, leNat_le4 dp hd, leNat_le4 n hn]

/-! ## Whole-encoder closed forms -/

theorem writerInit_pylists (vox pal : PyArr) (w h d n c : Nat) (prest : List Nat)
    (hv : npShape vox = some [w, h, d]) (hp : npShape pal = some (n :: c :: prest)) :
    writerInit (.pylist vox) (.pylist pal) = .ok ⟨vox, pal, w, h, d, n, c, .I, 1, 1⟩ := by
  have hcv : npConvert (.pylist vox) default_voxels = .ok vox := by
    simp only [npConvert, hv, Option.isSome_some, if_true]
  have hcp : npConvert (.pylist pal) default_palette = .ok pal := by
    simp only [npConvert, hp, Option.isSome_some, if_true]
  simp only [writerInit, hcv, hcp, ok_bind, hv, hp]

theorem write_voxels_spec (wr : XRawVolumeWriter)
    (hrange : ∀ x y z, x < wr.width → y < wr.height → z < wr.depth →
      0 ≤ at3 wr.voxels x y z ∧ at3 wr.voxels x y z < 256) :
    ∃ bs, write_voxels wr = .ok bs ∧
      bs.length = wr.depth * (wr.height * wr.width) ∧
      ∀ x y z, x < wr.width → y < wr.height → z < wr.depth →
        bs.getD ((z * wr.height + y) * wr.width + x) 0 = (at3 wr.voxels x y z).toNat := by
  obtain ⟨bs, hok, hlen, hval⟩ := writeVoxZ_spec wr.voxels wr.width wr.height wr.depth 0
    (fun j2 j i hj2 hj hi => by
      have := hrange i j j2 hi hj hj2
      simpa using this)
  refine ⟨bs, hok, hlen, fun x y z hx hy hz => ?_⟩
  have := hval z y x hz hy hx
  rw [Nat.zero_add] at this
  rw [show (z * wr.height + y) * wr.width + x
      = z * (wr.height * wr.width) + (y * wr.width + x) by ring]
  exact this

theorem write_voxels_ok_range (wr : XRawVolumeWriter) (bs : List Nat)
    (hok : write_voxels wr = .ok bs) :
    ∀ x y z, x < wr.width → y < wr.height → z < wr.depth →
      0 ≤ at3 wr.voxels x y z ∧ at3 wr.voxels x y z < 256 := by
  intro x y z hx hy hz
  have := writeVoxZ_ok_range wr.voxels wr.width wr.height wr.depth 0 bs hok z y x hz hy hx
  simpa using this

theorem write_palette_spec (wr : XRawVolumeWriter)
    (hrange : ∀ i t, i < wr.num_of_pallette_colors → t < wr.num_of_color_channels →
      0 ≤ at2 wr.palette i t ∧ at2 wr.palette i t < 256) :
    ∃ bs, write_palette wr = .ok bs ∧
      bs.length = wr.num_of_pallette_colors * wr.num_of_color_channels ∧
      ∀ i t, i < wr.num_of_pallette_colors → t < wr.num_of_color_channels →
        bs.getD (i * wr.num_of_color_channels + t) 0 = (at2 wr.palette i t).toNat := by
  obtain ⟨bs, hok, hlen, hval⟩ := writePalI_spec wr.palette wr.num_of_color_channels
    wr.num_of_pallette_colors 0
    (fun j t hj ht => by
      have := hrange j t hj ht
      simpa using this)
  refine ⟨bs, hok, hlen, fun i t hi ht => ?_⟩
  have := hval i t hi ht
  rwa [Nat.zero_add] at this

theorem write_palette_ok_range (wr : XRawVolumeWriter) (bs : List Nat)
    (hok : write_palette wr = .ok bs) :
    ∀ i t, i < wr.num_of_pallette_colors → t < wr.num_of_color_channels →
      0 ≤ at2 wr.palette i t ∧ at2 wr.palette i t < 256 := by
  intro i t hi ht
  have := writePalI_ok_range wr.palette wr.num_of_color_channels
    wr.num_of_pallette_colors 0 bs hok i t hi ht
  simpa using this

theorem write_file_parts (wr : XRawVolumeWriter) (out : List Nat)
    (hok : write_file wr = .ok out) :
    ∃ hd vb pb, write_header wr = .ok hd ∧ write_voxels wr = .ok vb ∧
      write_palette wr = .ok pb ∧ out = hd ++ vb ++ pb := by
  have hstep : write_file wr
      = (write_header wr >>= fun hd => write_voxels wr >>= fun vb =>
          write_palette wr >>= fun pb => .ok (hd ++ vb ++ pb)) := rfl
  rw [hstep] at hok
  cases hh : write_header wr with
  | error e => rw [hh, error_bind] at hok; exact Except.noConfusion hok
  | ok hd =>
    rw [hh, ok_bind] at hok
    cases hv : write_voxels wr with
    | error e => rw [hv, error_bind] at hok; exact Except.noConfusion hok
    | ok vb =>
      rw [hv, ok_bind] at hok
      cases hp : write_palette wr with
      | error e => rw [hp, error_bind] at hok; exact Except.noConfusion hok
      | ok pb =>
        rw [hp, ok_bind] at hok
        exact ⟨hd, vb, pb, rfl, rfl, rfl, (Except.ok.injEq _ _ ▸ hok).symm⟩

/-! ## Claims -/

/-- C4: once `parse` has returned successfully on an `XRawVolumeParser`
instance, every later `parse` call returns the previously computed
dictionary and leaves the instance — in particular its file cursor —
untouched, so no further reads happen (at most one read pass per
instance). -/
theorem c4_parse_idempotent (s0 s1 : ParserState) (d : XRawData)
    (h : parse s0 = (.ok d, s1)) :
    parse s1 = (.ok d, s1) := by
  obtain ⟨stream, pos, data⟩ := s0
  cases data with
  | some d0 =>
    have hq : parse ⟨stream, pos, some d0⟩ = (.ok d0, ⟨stream, pos, some d0⟩) := rfl
    rw [hq] at h
    injection h with h1 h2
    injection h1 with h3
    subst h2
    subst h3
    exact hq
  | none =>
    have hq0 : parse ⟨stream, pos, none⟩
        = (match parsePass stream pos with
            | .ok (d2, p) => (.ok d2, ⟨stream, p, some d2⟩)
            | .error e => (.error e, ⟨stream, pos, none⟩)) := rfl
    cases hp : parsePass stream pos with
    | ok dp =>
      obtain ⟨d2, p⟩ := dp
      have hq : parse ⟨stream, pos, none⟩ = (.ok d2, ⟨stream, p, some d2⟩) := by
        rw [hq0, hp]
      rw [hq] at h
      injection h with h1 h2
      injection h1 with h3
      subst h2
      subst h3
      rfl
    | error e =>
      have hq : parse ⟨stream, pos, none⟩ = (.error e, ⟨stream, pos, none⟩) := by
        rw [hq0, hp]
      rw [hq] at h
      injection h with h1 h2
      exact Except.noConfusion h1

/-- Witness for C4 at a concrete 24-byte source describing an empty
`0×0×0` volume with an empty palette. -/
theorem c4_parse_idempotent_witness :
    parse ⟨[88, 82, 65, 87, 0, 4, 8, 8, 0, 0, 0, 0, 0, 0, 0, 0, 0, 0, 0, 0, 0, 0, 0, 0],
        24, some ⟨0, 0, 0, 0, [], [], []⟩⟩
      = (.ok ⟨0, 0, 0, 0, [], [], []⟩,
         ⟨[88, 82, 65, 87, 0, 4, 8, 8, 0, 0, 0, 0, 0, 0, 0, 0, 0, 0, 0, 0, 0, 0, 0, 0],
          24, some ⟨0, 0, 0, 0, [], [], []⟩⟩) :=
  c4_parse_idempotent
    ⟨[88, 82, 65, 87, 0, 4, 8, 8, 0, 0, 0, 0, 0, 0, 0, 0, 0, 0, 0, 0, 0, 0, 0, 0], 0, none⟩
    _ _ rfl

/-- C5: supplying the writer a nested-list voxel array whose numpy shape
does not have exactly 3 dimensions makes the constructor fail with the
shape `ValueError` — purely at construction time; no file is opened
before `write_file` (any palette argument whose own conversion succeeds
leaves this outcome unchanged). -/
theorem c5_shape_error (a : PyArr) (dims : List Nat) (palArg : ArgVal) (pal : PyArr)
    (hshape : npShape a = some dims) (hdim : dims.length ≠ 3)
    (hpal : npConvert palArg default_palette = .ok pal) :
    writerInit (.pylist a) palArg = .error .shapeError := by
  have hcv : npConvert (.pylist a) default_voxels = .ok a := by
    simp only [npConvert, hshape, Option.isSome_some, if_true]
  simp only [writerInit, hcv, hpal, ok_bind, hshape]
  rcases dims with _ | ⟨w, _ | ⟨h, _ | ⟨d, _ | ⟨e, tl⟩⟩⟩⟩
  · rfl
  · rfl
  · rfl
  · simp at hdim
  · rfl

/-- Witness for C5: a 2-dimensional `1×1` nested list. -/
theorem c5_shape_error_witness :
    writerInit (.pylist (.arr [.arr [.int 1]])) .none = .error .shapeError :=
  c5_shape_error (.arr [.arr [.int 1]]) [1, 1] .none default_palette rfl
    (by decide) rfl

set_option maxRecDepth 100000 in
/-- C10 counterexample: a single-element `1×1×1` numpy array passed as
the voxels argument is accepted by the constructor (its truthiness test
succeeds), refuting the claim's closing assertion that only nested-list
or omitted arguments are accepted. -/
theorem c10_counterexample :
    writerInit (.ndarray (.arr [.arr [.arr [.int 5]]])) .none
      = .ok ⟨.arr [.arr [.arr [.int 5]]], default_palette, 1, 1, 1, 256, 4, .I, 1, 1⟩ := rfl

/-- C10 (amended): a numpy ndarray with more than one element supplied as
the voxels or the palette argument makes the constructor fail with
numpy's ambiguous-truth-value `ValueError`, because `arg != None` is an
elementwise comparison; nested lists, omitted arguments and one-element
ndarrays are accepted instead. -/
theorem c10_ndarray_ambiguous (a : PyArr) (dims : List Nat) (palArg : ArgVal)
    (ha : npShape a = some dims) (hsz : 1 < dims.prod) :
    writerInit (.ndarray a) palArg = .error .ambiguousTruth ∧
    ∀ (v : PyArr) (dv : List Nat) (b : PyArr) (db : List Nat),
      npShape v = some dv → npShape b = some db → 1 < db.prod →
      writerInit (.pylist v) (.ndarray b) = .error .ambiguousTruth := by
  constructor
  · have hcv : npConvert (.ndarray a) default_voxels = .error .ambiguousTruth := by
      simp only [npConvert, ha]
      rw [if_neg (by omega)]
    simp only [writerInit, hcv, error_bind]
  · intro v dv b db hv hb hbsz
    have hcv : npConvert (.pylist v) default_voxels = .ok v := by
      simp only [npConvert, hv, Option.isSome_some, if_true]
    have hcb : npConvert (.ndarray b) default_palette = .error .ambiguousTruth := by
      simp only [npConvert, hb]
      rw [if_neg (by omega)]
    simp only [writerInit, hcv, hcb, ok_bind, error_bind]

/-- Witness for C10 at a two-element ndarray, passed once as the voxels
and once as the palette argument. -/
theorem c10_ndarray_ambiguous_witness :
    writerInit (.ndarray (.arr [.int 1, .int 2])) .none = .error .ambiguousTruth ∧
    writerInit (.pylist (.arr [.arr [.arr [.int 0]]])) (.ndarray (.arr [.int 1, .int 2]))
      = .error .ambiguousTruth :=
  ⟨(c10_ndarray_ambiguous (.arr [.int 1, .int 2]) [2] .none rfl (by decide)).1,
   (c10_ndarray_ambiguous (.arr [.int 1, .int 2]) [2] .none rfl (by decide)).2
     (.arr [.arr [.arr [.int 0]]]) [1, 1, 1] (.arr [.int 1, .int 2]) [2] rfl rfl (by decide)⟩

set_option maxRecDepth 100000 in
/-- C9 counterexample: a `1×1×1` voxel grid holding the value 300 is
accepted by the constructor, but `write_file` then fails with the
`ValueError` of `bytes([300])` instead of succeeding with the value
truncated to its low byte. -/
theorem c9_counterexample :
    ((writerInit (.pylist (.arr [.arr [.arr [.int 300]]])) .none).bind write_file)
      = .error .byteOutOfRange := rfl

/-- C9 (amended): the byte-level writes never truncate silently — when
`write_file` succeeds, every voxel index and every palette channel value
it wrote lay in `0..255`; an out-of-range value instead makes
`write_file` fail with the `ValueError` raised by `bytes([v])`. -/
theorem c9_no_silent_truncation (wr : XRawVolumeWriter) (out : List Nat)
    (hok : write_file wr = .ok out) :
    (∀ x y z, x < wr.width → y < wr.height → z < wr.depth →
      0 ≤ at3 wr.voxels x y z ∧ at3 wr.voxels x y z < 256) ∧
    (∀ i t, i < wr.num_of_pallette_colors → t < wr.num_of_color_channels →
      0 ≤ at2 wr.palette i t ∧ at2 wr.palette i t < 256) := by
  obtain ⟨hd, vb, pb, _, hv, hp, _⟩ := write_file_parts wr out hok
  exact ⟨write_voxels_ok_range wr vb hv, write_palette_ok_range wr pb hp⟩

/-- Witness for C9 on a concrete `1×1×1` writer whose write succeeds. -/
theorem c9_no_silent_truncation_witness :
    (∀ x y z, x < 1 → y < 1 → z < 1 →
      0 ≤ at3 (.arr [.arr [.arr [.int 7]]]) x y z
        ∧ at3 (.arr [.arr [.arr [.int 7]]]) x y z < 256) ∧
    (∀ i t, i < 1 → t < 1 →
      0 ≤ at2 (.arr [.arr [.int 1]]) i t ∧ at2 (.arr [.arr [.int 1]]) i t < 256) :=
  c9_no_silent_truncation
    ⟨.arr [.arr [.arr [.int 7]]], .arr [.arr [.int 1]], 1, 1, 1, 1, 1, .I, 1, 1⟩
    [88, 82, 65, 87, 0, 1, 8, 8, 1, 0, 0, 0, 1, 0, 0, 0, 1, 0, 0, 0, 1, 0, 0, 0, 7, 1]
    rfl

/-- C3 counterexample: a source starting with four `0xFF` bytes does not
have the magic tag, yet `parse` fails with the `UnicodeDecodeError` of
`bytes.decode('utf-8')` — not with the format-mismatch `ValueError` the
claim names. -/
theorem c3_counterexample :
    (parse ⟨[255, 255, 255, 255], 0, none⟩).1 = .error .unicodeDecodeError ∧
    Err.unicodeDecodeError ≠ Err.formatError := ⟨rfl, by decide⟩

/-- C3 (amended): for every byte source whose first 4 bytes are not the
ASCII bytes `"XRAW"`, `parse` fails before any other header field is read
— with the format-mismatch `ValueError` when those 4 bytes decode as
UTF-8 and with a `UnicodeDecodeError` otherwise; the outcome depends on
the first 4 bytes alone. -/
theorem c3_magic_reject (s : List Nat) (h : readN s 0 4 ≠ xrawMagic) :
    (parse ⟨s, 0, none⟩).1
      = .error (if utf8Valid (readN s 0 4) then Err.formatError else Err.unicodeDecodeError)
    ∧ ∀ s2 : List Nat, readN s2 0 4 = readN s 0 4 →
        (parse ⟨s2, 0, none⟩).1 = (parse ⟨s, 0, none⟩).1 := by
  have hkey : ∀ s2 : List Nat, readN s2 0 4 = readN s 0 4 →
      (parse ⟨s2, 0, none⟩).1
        = .error (if utf8Valid (readN s 0 4) then Err.formatError
            else Err.unicodeDecodeError) := by
    intro s2 h2
    have hpy : pyRead s2 0 4 = readN s 0 4 := by
      rw [← h2]
      simp [pyRead, readN]
    have hraise : raise_error_if_file_not_valid s2 0
        = .error (if utf8Valid (readN s 0 4) then Err.formatError
            else Err.unicodeDecodeError) := by
      cases hu : utf8Valid (readN s 0 4) with
      | true => simp only [raise_error_if_file_not_valid, hpy, hu, if_true, if_neg h]
      | false => simp only [raise_error_if_file_not_valid, hpy, hu, Bool.false_eq_true,
          if_false]
    have hrh : read_header s2 0
        = .error (if utf8Valid (readN s 0 4) then Err.formatError
            else Err.unicodeDecodeError) := by
      simp only [read_header, hraise, error_bind]
    have hpp : parsePass s2 0
        = .error (if utf8Valid (readN s 0 4) then Err.formatError
            else Err.unicodeDecodeError) := by
      simp only [parsePass, hrh, error_bind]
    have hq0 : parse ⟨s2, 0, none⟩
        = (match parsePass s2 0 with
            | .ok (d2, p) => (.ok d2, ⟨s2, p, some d2⟩)
            | .error e => (.error e, ⟨s2, 0, none⟩)) := rfl
    rw [hq0, hpp]
  exact ⟨hkey s rfl, fun s2 h2 => (hkey s2 h2).trans (hkey s rfl).symm⟩

/-- Witness for C3 at the spec's example source `"XRA0"`, plus one longer
source sharing the same first 4 bytes. -/
theorem c3_magic_reject_witness :
    (parse ⟨[88, 82, 65, 48], 0, none⟩).1
      = .error (if utf8Valid (readN [88, 82, 65, 48] 0 4) then Err.formatError
          else Err.unicodeDecodeError)
    ∧ (parse ⟨[88, 82, 65, 48, 99], 0, none⟩).1 = (parse ⟨[88, 82, 65, 48], 0, none⟩).1 :=
  ⟨(c3_magic_reject [88, 82, 65, 48] (by decide)).1,
   (c3_magic_reject [88, 82, 65, 48] (by decide)).2 [88, 82, 65, 48, 99] (by decide)⟩

/-- C2: the code violates the claim.  On a source that carries a valid
header announcing a `1×1×1` volume with an empty palette and then ends
(no voxel bytes at all), `parse` returns successfully with a zero-filled
voxel buffer: `int.from_bytes` of the empty short read is `0` and raises
nothing, so no `TruncatedDataError` surfaces. -/
theorem c2_truncated_zero_fill :
    ((parse ⟨[88, 82, 65, 87, 0, 4, 8, 8, 1, 0, 0, 0, 1, 0, 0, 0, 1, 0, 0, 0, 0, 0, 0, 0],
        0, none⟩).1).map
        (fun d => (d.width, d.height, d.depth, d.num_of_pallette_colors, d.voxels,
          d.remaining_bytes))
      = .ok (1, 1, 1, 0, [[[0]]], []) := rfl

/-- C6: the decoder reads, immediately after the 4 magic bytes, the four
one-byte fields channel-type index, channels per color, bits per channel
and bits per index in that order (the two bit widths floor-divided by 8),
then width, height, depth and palette color count as 4-byte little-endian
unsigned integers in that order, consuming exactly 24 bytes; and
`write_header` emits exactly the same 24-byte layout. -/
theorem c6_header_layout (t nc bc bi w h dp n : Nat) (rest : List Nat)
    (wr : XRawVolumeWriter)
    (ht : t ≤ 2) (hw : w < 2 ^ 32) (hh : h < 2 ^ 32) (hd : dp < 2 ^ 32) (hn : n < 2 ^ 32)
    (hwnc : wr.num_of_color_channels < 256)
    (hwbc : wr.bytes_per_channel * 8 < 256) (hwbi : wr.bytes_per_index * 8 < 256)
    (hww : wr.width < 2 ^ 32) (hwh : wr.height < 2 ^ 32) (hwd : wr.depth < 2 ^ 32)
    (hwn : wr.num_of_pallette_colors < 2 ^ 32) :
    read_header (xrawMagic ++ t :: nc :: bc :: bi ::
        (le4 w ++ le4 h ++ le4 dp ++ le4 n ++ rest)) 0
      = .ok (⟨fmtOfNat t, signedByte nc, (signedByte bc).fdiv 8, (signedByte bi).fdiv 8,
          w, h, dp, n⟩, 24)
    ∧ write_header wr = .ok (xrawMagic
        ++ [fmtIndex wr.color_channel_data_type, wr.num_of_color_channels,
            wr.bytes_per_channel * 8, wr.bytes_per_index * 8]
        ++ le4 wr.width ++ le4 wr.height ++ le4 wr.depth ++ le4 wr.num_of_pallette_colors)
    ∧ (xrawMagic
        ++ [fmtIndex wr.color_channel_data_type, wr.num_of_color_channels,
            wr.bytes_per_channel * 8, wr.bytes_per_index * 8]
        ++ le4 wr.width ++ le4 wr.height ++ le4 wr.depth
        ++ le4 wr.num_of_pallette_colors).length = 24 :=
  ⟨read_header_spec t nc bc bi w h dp n rest ht hw hh hd hn,
   write_header_spec wr hwnc hwbc hwbi hww hwh hwd hwn,
   by simp [xrawMagic, le4]⟩

/-- Witness for C6 at a concrete header (`t=0`, 4 channels, 8-bit widths,
extents 2×3×4, 5 palette entries) and a concrete writer instance. -/
theorem c6_header_layout_witness :
    read_header (xrawMagic ++ 0 :: 4 :: 8 :: 8 ::
        (le4 2 ++ le4 3 ++ le4 4 ++ le4 5 ++ [])) 0
      = .ok (⟨fmtOfNat 0, signedByte 4, (signedByte 8).fdiv 8, (signedByte 8).fdiv 8,
          2, 3, 4, 5⟩, 24)
    ∧ write_header ⟨.int 0, .int 0, 2, 3, 4, 5, 4, .I, 1, 1⟩ = .ok (xrawMagic
        ++ [fmtIndex Fmt.I, 4, 8, 8] ++ le4 2 ++ le4 3 ++ le4 4 ++ le4 5)
    ∧ (xrawMagic ++ [fmtIndex Fmt.I, 4, 8, 8]
        ++ le4 2 ++ le4 3 ++ le4 4 ++ le4 5).length = 24 :=
  c6_header_layout 0 4 8 8 2 3 4 5 [] ⟨.int 0, .int 0, 2, 3, 4, 5, 4, .I, 1, 1⟩
    (by decide) (by decide) (by decide) (by decide) (by decide) (by decide) (by decide)
    (by decide) (by decide) (by decide) (by decide) (by decide)

/-- C7: decoder and encoder traverse the voxel buffer in the same
`z`-outer, `y`-middle, `x`-fastest order.  The decoder associates the
element at flat offset `((z*h + y)*w + x) * bytes_per_index` with cell
`[x][y][z]`, decoding it as a little-endian unsigned integer of
`bytes_per_index` bytes; the encoder places each cell `[x][y][z]` as one
byte at flat position `(z*h + y)*w + x` of its voxel section.  (The
`bytes_per_index ≤ 4` bound keeps the modelled exact cells equal to the
`float64` cells of the numpy array, cf. the module comment.) -/
theorem c7_traversal_order (s : List Nat) (p w h d bpi x y z : Nat)
    (wr : XRawVolumeWriter) (bs : List Nat) (x2 y2 z2 : Nat)
    (hx : x < w) (hy : y < h) (hz : z < d) (_hbpi : bpi ≤ 4)
    (hlen : p + d * (h * (w * bpi)) ≤ s.length)
    (hbs : write_voxels wr = .ok bs)
    (hx2 : x2 < wr.width) (hy2 : y2 < wr.height) (hz2 : z2 < wr.depth) :
    (read_voxel_buffer s p w h d (bpi : Int)).2 = p + d * (h * (w * bpi))
    ∧ get3 (read_voxel_buffer s p w h d (bpi : Int)).1 x y z
        = (leNat (readN s (p + ((z * h + y) * w + x) * bpi) bpi) : Int)
    ∧ bs.length = wr.depth * (wr.height * wr.width)
    ∧ bs.getD ((z2 * wr.height + y2) * wr.width + x2) 0 = (at3 wr.voxels x2 y2 z2).toNat := by
  obtain ⟨hpos, _, hval⟩ := read_voxel_buffer_spec s p w h d bpi hlen
  obtain ⟨bs2, hok2, hlen2, hval2⟩ := write_voxels_spec wr (write_voxels_ok_range wr bs hbs)
  have hbseq : bs2 = bs := by
    rw [hok2] at hbs
    exact (Except.ok.injEq _ _).mp hbs
  subst hbseq
  exact ⟨hpos, hval x y z hx hy hz, hlen2, hval2 x2 y2 z2 hx2 hy2 hz2⟩

/-- Witness for C7: reading a one-voxel volume with 2-byte indices from a
2-byte source, and the writer of a concrete `1×1×1` volume. -/
theorem c7_traversal_order_witness :
    (read_voxel_buffer [9, 8] 0 1 1 1 ((2 : Nat) : Int)).2 = 0 + 1 * (1 * (1 * 2))
    ∧ get3 (read_voxel_buffer [9, 8] 0 1 1 1 ((2 : Nat) : Int)).1 0 0 0
        = (leNat (readN [9, 8] (0 + ((0 * 1 + 0) * 1 + 0) * 2) 2) : Int)
    ∧ ([7] : List Nat).length = 1 * (1 * 1)
    ∧ ([7] : List Nat).getD ((0 * 1 + 0) * 1 + 0) 0
        = (at3 (.arr [.arr [.arr [.int 7]]]) 0 0 0).toNat :=
  c7_traversal_order [9, 8] 0 1 1 1 2 0 0 0
    ⟨.arr [.arr [.arr [.int 7]]], .arr [.arr [.int 1]], 1, 1, 1, 1, 1, .I, 1, 1⟩
    [7] 0 0 0 (by decide) (by decide) (by decide) (by decide) (by decide) rfl
    (by decide) (by decide) (by decide)

/-- C8: with `bytes_per_channel ∈ {1,2,4}` and a channel-type index
`t < 3`, `read_palette_buffer` succeeds, reads `bytes_per_channel` bytes
per channel for `n × c` channels in entry-major order, right-pads each
chunk with zero bytes to 4 bytes, and stores the buffer decoded by the
type selected from `color_channel_data_types` (unsigned 32-bit, signed
32-bit, or IEEE binary32 for `t = 0, 1, 2`). -/
theorem c8_palette_decode (s : List Nat) (p n c bpc t i ch : Nat)
    (hbpc : bpc = 1 ∨ bpc = 2 ∨ bpc = 4) (ht : t < 3)
    (hi : i < n) (hch : ch < c)
    (hlen : p + n * (c * bpc) ≤ s.length) :
    channelTypeOfIndex (t : Nat) = .ok (fmtOfNat t)
    ∧ ∃ pal, read_palette_buffer s p n (c : Int) (bpc : Int) (fmtOfNat t)
          = .ok (pal, p + n * (c * bpc))
        ∧ Shaped2 pal n c
        ∧ get2 pal i ch = unpackVal (fmtOfNat t)
            (readN s (p + (i * c + ch) * bpc) bpc ++ List.replicate (4 - bpc) 0) := by
  constructor
  · interval_cases t
    · rfl
    · rfl
    · rfl
  · obtain ⟨pal, hok, hsh, hval⟩ := read_palette_buffer_spec s p n c bpc (fmtOfNat t)
      (by omega) hlen
    exact ⟨pal, hok, hsh, hval i ch hi hch⟩

/-- Witness for C8: two 1-channel entries of 2 bytes each, unsigned
type. -/
theorem c8_palette_decode_witness :
    channelTypeOfIndex ((0 : Nat) : Nat) = .ok (fmtOfNat 0)
    ∧ ∃ pal, read_palette_buffer [7, 5, 3, 1] 0 2 ((1 : Nat) : Int) ((2 : Nat) : Int)
          (fmtOfNat 0) = .ok (pal, 0 + 2 * (1 * 2))
        ∧ Shaped2 pal 2 1
        ∧ get2 pal 1 0 = unpackVal (fmtOfNat 0)
            (readN [7, 5, 3, 1] (0 + (1 * 1 + 0) * 2) 2 ++ List.replicate (4 - 2) 0) :=
  c8_palette_decode [7, 5, 3, 1] 0 2 1 2 0 1 0 (by omega) (by omega) (by omega) (by omega)
    (by decide)

set_option maxRecDepth 100000 in
/-- C1 counterexample: a valid `1×1×1` voxel grid and a `1×128`-channel
palette, all values in `0..255`, write successfully, but parsing the
produced stream fails: the channel count 128 is read back as the signed
byte `-128` and `np.zeros((1, -128))` raises a `ValueError`. -/
theorem c1_counterexample :
    ((writerInit (.pylist (.arr [.arr [.arr [.int 0]]]))
        (.pylist (.arr [.arr (List.replicate 128 (.int 0))]))).bind
      (fun wr => (write_file wr).map (fun out => (parse ⟨out, 0, none⟩).1)))
      = .ok (.error .negativeDimension) := rfl

/-- C1 (amended): for every 3-dimensional nested-list voxel array and
2-dimensional nested-list palette with all values in `0..255`, extents
below `2^32` and at most 127 channels per color, writing with
`write_file` and parsing the produced stream reproduces width, height,
depth, palette color count, every voxel cell `[x][y][z]` and every
palette channel value.  (The channel bound is forced by the
counterexample: the decoder reads the channel count back as a signed
byte, so 128 or more channels make the parse fail; `2^32` bounds are
forced by the 4-byte header fields.) -/
theorem c1_roundtrip (vox pal : PyArr) (w h d n c : Nat)
    (hv : npShape vox = some [w, h, d]) (hp : npShape pal = some [n, c])
    (hw : w < 2 ^ 32) (hh : h < 2 ^ 32) (hd : d < 2 ^ 32) (hn : n < 2 ^ 32)
    (hc : c ≤ 127)
    (hvr : ∀ x y z, x < w → y < h → z < d → 0 ≤ at3 vox x y z ∧ at3 vox x y z < 256)
    (hpr : ∀ i t, i < n → t < c → 0 ≤ at2 pal i t ∧ at2 pal i t < 256) :
    ∃ wr out data st1,
      writerInit (.pylist vox) (.pylist pal) = .ok wr
      ∧ write_file wr = .ok out
      ∧ parse ⟨out, 0, none⟩ = (.ok data, st1)
      ∧ data.width = w ∧ data.height = h ∧ data.depth = d
      ∧ data.num_of_pallette_colors = n
      ∧ (∀ x y z, x < w → y < h → z < d → get3 data.voxels x y z = at3 vox x y z)
      ∧ (∀ i t, i < n → t < c → get2 data.palette i t = .finite ((at2 pal i t : ℤ) : ℚ)) := by
  -- the writer instance
  have hinit : writerInit (.pylist vox) (.pylist pal)
      = .ok ⟨vox, pal, w, h, d, n, c, .I, 1, 1⟩ :=
    writerInit_pylists vox pal w h d n c [] hv hp
  -- the three sections of the produced stream
  have hhd : write_header ⟨vox, pal, w, h, d, n, c, .I, 1, 1⟩
      = .ok (xrawMagic ++ [0, c, 8, 8] ++ le4 w ++ le4 h ++ le4 d ++ le4 n) :=
    write_header_spec ⟨vox, pal, w, h, d, n, c, .I, 1, 1⟩
      (by show c < 256; omega) (by show 1 * 8 < 256; norm_num)
      (by show 1 * 8 < 256; norm_num) hw hh hd hn
  obtain ⟨vb, hvb, hvbl, hvbv⟩ :=
    write_voxels_spec ⟨vox, pal, w, h, d, n, c, .I, 1, 1⟩ hvr
  obtain ⟨pb, hpb, hpbl, hpbv⟩ :=
    write_palette_spec ⟨vox, pal, w, h, d, n, c, .I, 1, 1⟩ hpr
  have hvbl2 : vb.length = d * (h * w) := hvbl
  have hpbl2 : pb.length = n * c := hpbl
  have hvbv2 : ∀ x y z, x < w → y < h → z < d →
      vb.getD ((z * h + y) * w + x) 0 = (at3 vox x y z).toNat := hvbv
  have hpbv2 : ∀ i t, i < n → t < c →
      pb.getD (i * c + t) 0 = (at2 pal i t).toNat := hpbv
  have hwf : write_file ⟨vox, pal, w, h, d, n, c, .I, 1, 1⟩
      = .ok ((xrawMagic ++ [0, c, 8, 8] ++ le4 w ++ le4 h ++ le4 d ++ le4 n) ++ vb ++ pb) := by
    have hstep : write_file ⟨vox, pal, w, h, d, n, c, .I, 1, 1⟩
        = (write_header ⟨vox, pal, w, h, d, n, c, .I, 1, 1⟩ >>= fun hd2 =>
            write_voxels ⟨vox, pal, w, h, d, n, c, .I, 1, 1⟩ >>= fun vb2 =>
            write_palette ⟨vox, pal, w, h, d, n, c, .I, 1, 1⟩ >>= fun pb2 =>
            .ok (hd2 ++ vb2 ++ pb2)) := rfl
    rw [hstep, hhd, ok_bind, hvb, ok_bind, hpb, ok_bind]
  -- the produced stream and its facts
  set s : List Nat :=
    (xrawMagic ++ [0, c, 8, 8] ++ le4 w ++ le4 h ++ le4 d ++ le4 n) ++ vb ++ pb with hsdef
  clear_value s
  have hH24 : (xrawMagic ++ [0, c, 8, 8] ++ le4 w ++ le4 h ++ le4 d ++ le4 n).length = 24 := by
    simp [xrawMagic, le4]
  have hslen : s.length = 24 + (d * (h * w) + n * c) := by
    rw [hsdef]
    simp only [List.length_append, hH24, hvbl2, hpbl2]
    ring
  have hres : s = xrawMagic ++ 0 :: c :: 8 :: 8 ::
      (le4 w ++ le4 h ++ le4 d ++ le4 n ++ (vb ++ pb)) := by
    rw [hsdef]
    simp [xrawMagic, List.append_assoc]
  have hsbc : signedByte c = (c : Int) := by
    rw [signedByte, if_pos (by omega)]
  have h81 : (signedByte 8).fdiv 8 = (1 : Int) := by decide
  have hrh : read_header s 0 = .ok (⟨.I, (c : Int), 1, 1, w, h, d, n⟩, 24) := by
    rw [hres]
    rw [read_header_spec 0 c 8 8 w h d n (vb ++ pb) (by omega) hw hh hd hn]
    rw [hsbc, h81]
    rfl
  have hlen1 : 24 + d * (h * (w * 1)) ≤ s.length := by
    rw [hslen]
    have he : d * (h * (w * 1)) = d * (h * w) := by ring
    omega
  obtain ⟨hpos, hshp, hval⟩ := read_voxel_buffer_spec s 24 w h d 1 hlen1
  have hsplitv : read_voxel_buffer s 24 w h d (1 : Int)
      = ((read_voxel_buffer s 24 w h d (1 : Int)).1, 24 + d * (h * (w * 1))) := by
    conv_lhs => rw [← Prod.mk.eta (p := read_voxel_buffer s 24 w h d (1 : Int))]
    exact congrArg _ hpos
  have hlen2 : 24 + d * (h * (w * 1)) + n * (c * 1) ≤ s.length := by
    rw [hslen]
    have he : d * (h * (w * 1)) = d * (h * w) := by ring
    have he2 : n * (c * 1) = n * c := by ring
    omega
  obtain ⟨PAL, hpok, hpsh, hpalv⟩ :=
    read_palette_buffer_spec s (24 + d * (h * (w * 1))) n c 1 .I (by omega) hlen2
  have hpok2 : read_palette_buffer s (24 + d * (h * (w * 1))) n (c : Int) (1 : Int) .I
      = .ok (PAL, 24 + d * (h * (w * 1)) + n * (c * 1)) := hpok
  have hpass : parsePass s 0
      = .ok (⟨w, h, d, n, (read_voxel_buffer s 24 w h d (1 : Int)).1, PAL,
          s.drop (24 + d * (h * (w * 1)) + n * (c * 1))⟩, s.length) := by
    simp only [parsePass, hrh, ok_bind]
    rw [hsplitv]
    simp only [hpok2, ok_bind]
  have hparse : parse ⟨s, 0, none⟩
      = (.ok (⟨w, h, d, n, (read_voxel_buffer s 24 w h d (1 : Int)).1, PAL,
            s.drop (24 + d * (h * (w * 1)) + n * (c * 1))⟩ : XRawData),
         ⟨s, s.length, some ⟨w, h, d, n, (read_voxel_buffer s 24 w h d (1 : Int)).1, PAL,
            s.drop (24 + d * (h * (w * 1)) + n * (c * 1))⟩⟩) := by
    have hq0 : parse ⟨s, 0, none⟩
        = (match parsePass s 0 with
            | .ok (d2, p) => (.ok d2, ⟨s, p, some d2⟩)
            | .error e => (.error e, ⟨s, 0, none⟩)) := rfl
    rw [hq0, hpass]
  refine ⟨_, s, _, _, hinit, hwf, hparse, rfl, rfl, rfl, rfl, ?_, ?_⟩
  · -- voxel cells round-trip
    intro x y z hx hy hz
    show get3 (read_voxel_buffer s 24 w h d (1 : Int)).1 x y z = at3 vox x y z
    have h1 : get3 (read_voxel_buffer s 24 w h d (1 : Int)).1 x y z
        = (leNat (readN s (24 + ((z * h + y) * w + x) * 1) 1) : Int) :=
      hval x y z hx hy hz
    have hflat : (z * h + y) * w + x < d * (h * w) := by
      calc (z * h + y) * w + x < (z * h + y) * w + w := by omega
        _ = (z * h + y + 1) * w := by ring
        _ ≤ (d * h) * w := by
            refine Nat.mul_le_mul_right w ?_
            calc z * h + y + 1 ≤ z * h + h := by omega
              _ = (z + 1) * h := by ring
              _ ≤ d * h := Nat.mul_le_mul_right h (by omega)
        _ = d * (h * w) := by ring
    have hres2 : s = (xrawMagic ++ [0, c, 8, 8] ++ le4 w ++ le4 h ++ le4 d ++ le4 n)
        ++ (vb ++ pb) := by
      rw [hsdef, List.append_assoc]
    have hreadv : readN s (24 + ((z * h + y) * w + x) * 1) 1
        = [vb.getD ((z * h + y) * w + x) 0] := by
      rw [hres2]
      have hpe : 24 + ((z * h + y) * w + x) * 1
          = (xrawMagic ++ [0, c, 8, 8] ++ le4 w ++ le4 h ++ le4 d ++ le4 n).length
            + ((z * h + y) * w + x) := by
        rw [hH24]
        ring
      rw [hpe, readN_append,
        readN_one (vb ++ pb) _ (by rw [List.length_append, hvbl2]; omega),
        List.getD_append _ _ _ _ (by rw [hvbl2]; exact hflat)]
    rw [h1, hreadv, leNat_singleton, hvbv2 x y z hx hy hz,
      Int.toNat_of_nonneg (hvr x y z hx hy hz).1]
  · -- palette cells round-trip
    intro i t hi ht
    show get2 PAL i t = .finite ((at2 pal i t : ℤ) : ℚ)
    have h2 : get2 PAL i t = unpackVal .I
        (readN s (24 + d * (h * (w * 1)) + (i * c + t) * 1) 1 ++ List.replicate (4 - 1) 0) :=
      hpalv i t hi ht
    have hflat : i * c + t < n * c := by
      calc i * c + t < i * c + c := by omega
        _ = (i + 1) * c := by ring
        _ ≤ n * c := Nat.mul_le_mul_right c (by omega)
    have hreadp : readN s (24 + d * (h * (w * 1)) + (i * c + t) * 1) 1
        = [pb.getD (i * c + t) 0] := by
      have hpe : 24 + d * (h * (w * 1)) + (i * c + t) * 1
          = ((xrawMagic ++ [0, c, 8, 8] ++ le4 w ++ le4 h ++ le4 d ++ le4 n) ++ vb).length
            + (i * c + t) := by
        rw [List.length_append, hH24, hvbl2]
        ring
      rw [hsdef, hpe, readN_append, readN_one pb _ (by rw [hpbl2]; exact hflat)]
    rw [h2, hreadp, hpbv2 i t hi ht]
    have hnn := (hpr i t hi ht).1
    have hun : unpackVal .I ([(at2 pal i t).toNat] ++ List.replicate (4 - 1) 0)
        = .finite (((at2 pal i t).toNat : ℕ) : ℚ) := by
      show PyFloat.finite ((leNat ([(at2 pal i t).toNat] ++ List.replicate (4 - 1) 0) : ℕ) : ℚ)
          = _
      have hle : leNat ([(at2 pal i t).toNat] ++ List.replicate (4 - 1) 0)
          = (at2 pal i t).toNat := by
        show leNat [(at2 pal i t).toNat, 0, 0, 0] = (at2 pal i t).toNat
        simp [leNat]
      rw [hle]
    rw [hun]
    exact congrArg PyFloat.finite
      (by exact_mod_cast congrArg (fun z : ℤ => (z : ℚ)) (Int.toNat_of_nonneg hnn))

/-- Witness for C1 at the spec's concrete scenario: a `2×1×1` volume with
indices 1 and 2 and a 2-entry RGBA palette. -/
theorem c1_roundtrip_witness :
    ∃ wr out data st1,
      writerInit (.pylist (.arr [.arr [.arr [.int 1]], .arr [.arr [.int 2]]]))
          (.pylist (.arr [.arr [.int 10, .int 20, .int 30, .int 40],
            .arr [.int 50, .int 60, .int 70, .int 80]])) = .ok wr
      ∧ write_file wr = .ok out
      ∧ parse ⟨out, 0, none⟩ = (.ok data, st1)
      ∧ data.width = 2 ∧ data.height = 1 ∧ data.depth = 1
      ∧ data.num_of_pallette_colors = 2
      ∧ (∀ x y z, x < 2 → y < 1 → z < 1 →
          get3 data.voxels x y z
            = at3 (.arr [.arr [.arr [.int 1]], .arr [.arr [.int 2]]]) x y z)
      ∧ (∀ i t, i < 2 → t < 4 →
          get2 data.palette i t
            = .finite ((at2 (.arr [.arr [.int 10, .int 20, .int 30, .int 40],
                .arr [.int 50, .int 60, .int 70, .int 80]]) i t : ℤ) : ℚ)) :=
  c1_roundtrip (.arr [.arr [.arr [.int 1]], .arr [.arr [.int 2]]])
    (.arr [.arr [.int 10, .int 20, .int 30, .int 40],
      .arr [.int 50, .int 60, .int 70, .int 80]])
    2 1 1 2 4 rfl rfl (by norm_num) (by norm_num) (by norm_num) (by norm_num)
    (by norm_num)
    (by intro x y z hx hy hz
        interval_cases x <;> interval_cases y <;> interval_cases z <;> decide)
    (by intro i t hi ht
        interval_cases i <;> interval_cases t <;> decide)
